import Mathlib

/-!
Verification of the action-execution engine in `backend.py` (class `AIAssistant`
and `main`).  The Python source is shallowly embedded: every method that the
claims touch is translated into an executable Lean definition operating on an
explicit filesystem state (`FS`), an explicit process-runner oracle (`Runner`),
and an explicit working-directory string, mirroring the Python control flow
branch by branch.  Python library primitives used by the source
(`str.split`, `str.replace`, `str.strip`, `os.path.normpath`, `os.path.join`,
`os.path.abspath`, `json.loads`, `re.search` for the specific pattern the code
uses) are modelled by the `py*`/path functions below, each following the
documented CPython semantics.
-/

/-- Model of Python `str.startswith` on character lists. -/
def pyStartswith (s pre : String) : Bool :=
  pre.data.isPrefixOf s.data

/-- Model of Python `str.endswith`. -/
def pyEndswith (s suf : String) : Bool :=
  suf.data.isSuffixOf s.data

/-- Model of the Python containment test `sub in s` (contiguous substring). -/
def pyIn (sub s : String) : Bool :=
  decide (sub.data <:+: s.data)

/-- Model of Python `str.strip()`: whitespace removed from both ends. -/
def pyStrip (s : String) : String :=
  ⟨((s.data.dropWhile Char.isWhitespace).reverse.dropWhile Char.isWhitespace).reverse⟩

/-- Worker for `str.split(sep)` with a non-empty separator `c :: cs`.
`skip` counts separator characters still to be consumed after a match;
`acc` holds the current chunk reversed.  Structural recursion on the scanned
list keeps the definition kernel-reducible. -/
def splitSkip (c : Char) (cs : List Char) : List Char → Nat → List Char → List (List Char)
  | [], _, acc => [acc.reverse]
  | _ :: xs, skip + 1, acc => splitSkip c cs xs skip acc
  | x :: xs, 0, acc =>
    if (c :: cs).isPrefixOf (x :: xs) then
      acc.reverse :: splitSkip c cs xs cs.length []
    else
      splitSkip c cs xs 0 (x :: acc)

/-- Model of Python `str.split(sep)` for an explicit separator. -/
def pySplitStr (s sep : String) : List String :=
  match sep.data with
  | [] => [s]
  | c :: cs => (splitSkip c cs s.data 0 []).map (fun l => ⟨l⟩)

/-- Model of Python `str.replace(old, new)` (all occurrences, left to right,
non-overlapping); Python raises for an empty `old` only in `split`, while
`replace('' , n)` intersperses — the sources never call it with an empty
`old`, so that case is left as the identity. -/
def pyReplace (s old new : String) : String :=
  match old.data with
  | [] => s
  | c :: cs => ⟨List.intercalate new.data (splitSkip c cs s.data 0 [])⟩

/-- Worker for Python whitespace `str.split()`: splits on runs of whitespace
and drops empty chunks. -/
def splitWsAux : List Char → List Char → List (List Char)
  | [], acc => if acc.isEmpty then [] else [acc.reverse]
  | x :: xs, acc =>
    if x.isWhitespace then
      if acc.isEmpty then splitWsAux xs [] else acc.reverse :: splitWsAux xs []
    else
      splitWsAux xs (x :: acc)

/-- Model of Python `str.split()` (no argument: whitespace runs). -/
def pySplitWs (s : String) : List String :=
  (splitWsAux s.data []).map (fun l => ⟨l⟩)

/-- Splitting on a single character, as `str.split('/')` does; keeps empty
chunks, in particular the leading one of an absolute path. -/
def splitChar (c : Char) : List Char → List (List Char)
  | [] => [[]]
  | x :: xs =>
    if x = c then [] :: splitChar c xs
    else
      match splitChar c xs with
      | p :: ps => (x :: p) :: ps
      | [] => [[x]]

/-- The component-normalisation loop of CPython `posixpath.normpath`:
`slashes` is the count of retained leading slashes, `acc` is `new_comps`
reversed.  `''` and `'.'` components are dropped; `'..'` pops, except at the
root or after a retained `'..'`. -/
def procComps (slashes : Nat) : List (List Char) → List (List Char) → List (List Char)
  | acc, [] => acc.reverse
  | acc, comp :: rest =>
    if comp = [] ∨ comp = ['.'] then procComps slashes acc rest
    else if comp ≠ ['.', '.'] ∨ (slashes = 0 ∧ acc = []) ∨ acc.head? = some ['.', '.'] then
      procComps slashes (comp :: acc) rest
    else
      match acc with
      | _ :: acc' => procComps slashes acc' rest
      | [] => procComps slashes acc rest

/-- Leading-slash count retained by `posixpath.normpath`: two slashes exactly
are kept (POSIX), three or more collapse to one. -/
def leadSlashes (p : List Char) : Nat :=
  if ['/'].isPrefixOf p then
    if ['/', '/'].isPrefixOf p ∧ ¬ ['/', '/', '/'].isPrefixOf p then 2 else 1
  else 0

/-- Model of CPython `posixpath.normpath` on character lists. -/
def normpathL (p : List Char) : List Char :=
  if p = [] then ['.']
  else
    let slashes := leadSlashes p
    let comps := splitChar '/' p
    let nc := procComps slashes [] comps
    let res := List.replicate slashes '/' ++ List.intercalate ['/'] nc
    if res = [] then ['.'] else res

/-- Model of `os.path.normpath` on strings. -/
def normpathStr (s : String) : String :=
  ⟨normpathL s.data⟩

/-- Model of `os.path.isabs`. -/
def isabs (s : String) : Bool :=
  pyStartswith s "/"

/-- Model of `posixpath.join` with a single extra component. -/
def pjoin (a b : String) : String :=
  if isabs b then b
  else if a = "" ∨ pyEndswith a "/" then a ++ b
  else a ++ "/" ++ b

/-- Model of `os.path.abspath` with the process working directory passed
explicitly (the backend keeps `os.getcwd()` equal to its `working_dir` via
`os.chdir`). -/
def abspath (cwd p : String) : String :=
  if isabs p then normpathStr p else normpathStr (pjoin cwd p)

/-- Lookup in an association list of strings (model of reading one file's
content from the filesystem state). -/
def lookupStr : List (String × String) → String → Option String
  | [], _ => none
  | (k, v) :: rest, key => if k = key then some v else lookupStr rest key

/-- Filesystem state threaded through the embedded operations.  Paths are
stored normalised (the kernel resolves `.`/`..`/duplicate slashes, which
`normpathL` models lexically).  `writable p` is an oracle for whether opening
`p` for writing succeeds (permissions, missing parent, ...). -/
structure FS where
  dirs : List String
  files : List (String × String)
  execBits : List String
  writable : String → Bool

/-- Model of `os.path.isdir` (argument may be unnormalised). -/
def FS.isDirP (fs : FS) (p : String) : Bool :=
  decide (normpathStr p ∈ fs.dirs)

/-- Content of the file at `p`, if a file exists there. -/
def FS.readFile (fs : FS) (p : String) : Option String :=
  lookupStr fs.files (normpathStr p)

/-- Model of `os.path.isfile`. -/
def FS.isFileP (fs : FS) (p : String) : Bool :=
  (fs.readFile p).isSome

/-- Model of `os.path.exists`. -/
def FS.existsP (fs : FS) (p : String) : Bool :=
  fs.isDirP p || fs.isFileP p

/-- Model of `open(p, 'w').write(content)`: succeeds iff the oracle allows
writing at the normalised path. -/
def FS.writeFile (fs : FS) (p content : String) : FS :=
  { fs with files := (normpathStr p, content) :: fs.files }

/-- Model of `os.chmod(p, 0o755)`. -/
def FS.chmod (fs : FS) (p : String) : FS :=
  { fs with execBits := normpathStr p :: fs.execBits }

/-- Model of `os.makedirs(p, exist_ok=True)`: fails when a file occupies the
target path, otherwise records the directory.  (Intermediate-directory
creation is elided: only the final directory is recorded.) -/
def FS.makedirs (fs : FS) (p : String) : Bool × FS :=
  let n := normpathStr p
  if fs.isFileP n then (false, fs)
  else (true, { fs with dirs := n :: fs.dirs })

/-- Outcome oracle for `subprocess.run`: `time cmd cwd` is the wall time the
command would take, `run cmd cwd` its exit code, stdout and stderr when it
completes.  `termuxOpenPresent` models `shutil.which('termux-open')`. -/
structure Runner where
  time : String → String → Nat
  run : String → String → Int × String × String
  termuxOpenPresent : Bool

/-- Model of `subprocess.run(cmd, cwd=wd, timeout=t)`: `none` when the command
exceeds the timeout (`subprocess.TimeoutExpired`). -/
def Runner.withTimeout (sys : Runner) (cmd wd : String) (t : Nat) :
    Option (Int × String × String) :=
  if sys.time cmd wd > t then none else some (sys.run cmd wd)

/-- The deny-list of `AIAssistant.__init__` (`restricted`). -/
def restricted : List String :=
  ["/system", "/proc", "/dev", "/sys", "/root"]

/-- `working_dir` computed by `AIAssistant.__init__`: the passed directory when
it is truthy and exists, else the caller's current directory; then redirected
to the home directory when it starts with a deny-listed prefix.  `cwd` and
`home` are `os.getcwd()` and `os.path.expanduser('~')`. -/
def initWorkingDir (fs : FS) (cwd home : String) (initial_dir : Option String) : String :=
  let wd :=
    match initial_dir with
    | some d => if d ≠ "" ∧ fs.existsP (abspath cwd d) then abspath cwd d else cwd
    | none => cwd
  if restricted.any (fun p => pyStartswith wd p) then home else wd

/-- Model of `AIAssistant.check_file_exists` (the second, extension-less
branch of the Python code is unreachable — it re-tests the same path whose
existence the first branch already denied — and is kept verbatim). -/
def check_file_exists (fs : FS) (wd filename : String) : Bool × String :=
  let current_path := pjoin wd filename
  if fs.existsP current_path then (true, current_path)
  else if ¬ pyIn "." filename ∧ fs.existsP current_path ∧
      decide (normpathStr current_path ∈ fs.execBits) then (true, current_path)
  else (false, "")

/-- Model of `AIAssistant.create_file_with_content`: writes the content, sets
the executable bit for `.sh`/`.py`/extension-less names, returns `False` on
any I/O failure (the `except` branch, modelled by the `writable` oracle). -/
def create_file_with_content (fs : FS) (wd filename content : String) : Bool × FS :=
  let filepath := pjoin wd filename
  if fs.writable (normpathStr filepath) then
    let fs1 := fs.writeFile filepath content
    let fs2 :=
      if pyEndswith filename ".sh" ∨ pyEndswith filename ".py" ∨ ¬ pyIn "." filename then
        fs1.chmod filepath
      else fs1
    (true, fs2)
  else (false, fs)

/-- Model of `AIAssistant.safe_change_directory`: resolve relative targets
against `working_dir`, normalise, require an existing directory, and only then
update the working directory.  Returns the success flag and the (possibly
unchanged) working directory. -/
def safe_change_directory (fs : FS) (wd target_dir : String) : Bool × String :=
  let t1 := if ¬ isabs target_dir then pjoin wd target_dir else target_dir
  let t2 := abspath wd t1
  if ¬ fs.existsP t2 then (false, wd)
  else if ¬ fs.isDirP t2 then (false, wd)
  else (true, t2)

/-- Model of `AIAssistant.fix_gcc_command`: when `-lm` is absent, scan the
`.c` files named on the command line; the first one that exists and whose
content uses a math symbol triggers `command.replace('gcc ', 'gcc -lm ')`
(unreadable files are skipped by the `except: pass`). -/
def hasMathSymbols (content : String) : Bool :=
  ["#include <math.h>", "sin(", "cos(", "sqrt(", "pow("].any
    (fun x => pyIn x content)

/-- The `.c` tokens of a command line, as `command.split()` filters them. -/
def cFilesOf (command : String) : List String :=
  (pySplitWs command).filter (fun f => pyEndswith f ".c")

/-- The scanning loop of `fix_gcc_command` over the `.c` tokens. -/
def fixGccScan (fs : FS) (wd command : String) : List String → String
  | [] => command
  | c_file :: rest =>
    let c_file_path := pjoin wd c_file
    if fs.existsP c_file_path then
      match fs.readFile c_file_path with
      | some content =>
        if hasMathSymbols content then pyReplace command "gcc " "gcc -lm "
        else fixGccScan fs wd command rest
      | none => fixGccScan fs wd command rest
    else fixGccScan fs wd command rest

/-- Model of `AIAssistant.fix_gcc_command`. -/
def fix_gcc_command (fs : FS) (wd command : String) : String :=
  if ¬ pyIn "-lm" command then fixGccScan fs wd command (cFilesOf command)
  else command

/-- One segment of the `' && '`-chained loop in
`AIAssistant.handle_directory_operations`; returns `none` to continue with an
updated state, or `some` result to stop the whole step. -/
def dirOpSegment (sys : Runner) (fs : FS) (wd part : String) :
    Option (Int × String × String) × FS × String :=
  if pyStartswith part "mkdir " then
    let dir_name := pyStrip (pyReplace (pyReplace part "mkdir -p " "") "mkdir " "")
    let dir_name := if ¬ isabs dir_name then pjoin wd dir_name else dir_name
    match fs.makedirs dir_name with
    | (true, fs') => (none, fs', wd)
    | (false, _) =>
      (some (1, "", "Directory operation error: " ++ dir_name), fs, wd)
  else if pyStartswith part "cd " then
    let dir_name := pyStrip (pyReplace part "cd " "")
    match safe_change_directory fs wd dir_name with
    | (true, wd') => (none, fs, wd')
    | (false, _) =>
      (some (1, "", "Failed to change to directory " ++ dir_name), fs, wd)
  else
    match sys.withTimeout part wd 300 with
    | some (rc, out, err) =>
      if rc ≠ 0 then (some (rc, out, err), fs, wd) else (none, fs, wd)
    | none => (some (1, "", "Directory operation error: timeout"), fs, wd)

/-- The `for part in parts` loop of `handle_directory_operations`. -/
def dirOpLoop (sys : Runner) : FS → String → List String → (Int × String × String) × FS × String
  | fs, wd, [] => ((0, "Directory operations completed", ""), fs, wd)
  | fs, wd, part :: rest =>
    match dirOpSegment sys fs wd (pyStrip part) with
    | (some res, fs', wd') => (res, fs', wd')
    | (none, fs', wd') => dirOpLoop sys fs' wd' rest

/-- Model of `AIAssistant.handle_directory_operations`.  The final `else`
branch mirrors Python falling off the function (returning `None`); it is
unreachable from `execute_command`, whose guard established one of the two
conditions. -/
def handle_directory_operations (sys : Runner) (fs : FS) (wd command : String) :
    (Int × String × String) × FS × String :=
  if pyIn " && cd " command then
    dirOpLoop sys fs wd (pySplitStr command " && ")
  else if pyStartswith command "cd " then
    let dir_name := pyStrip (pyReplace command "cd " "")
    match safe_change_directory fs wd dir_name with
    | (true, wd') => ((0, "Changed to " ++ wd', ""), fs, wd')
    | (false, _) => ((1, "", "Failed to change to directory " ++ dir_name), fs, wd)
  else ((1, "", ""), fs, wd)

/-- Model of `AIAssistant.handle_heredoc_creation`: a `cat > file << EOF`
idiom creates an empty placeholder file; anything else runs as a captured
command with a 60 second timeout, errors becoming a failed result. -/
def handle_heredoc_creation (sys : Runner) (fs : FS) (wd command : String) :
    (Int × String × String) × FS × String :=
  if pyIn "cat >" command ∧ pyIn "<<" command ∧ (pySplitStr command "<<").length ≥ 2 then
    let file_part := pyStrip ((pySplitStr command "<<").headD "")
    let filename := pyStrip (pyReplace file_part "cat >" "")
    let filepath := pjoin wd filename
    if fs.writable (normpathStr filepath) then
      ((0, "Created " ++ filename, ""), fs.writeFile filepath "", wd)
    else ((1, "", "Heredoc creation error: " ++ filename), fs, wd)
  else
    match sys.withTimeout command wd 60 with
    | some res => (res, fs, wd)
    | none => ((1, "", "Heredoc creation error: timeout"), fs, wd)

/-- The interactive-program heuristic of `execute_command`. -/
def isInteractiveCmd (command : String) : Bool :=
  ["./donut", "./snake", "./game", "python3 calculator.py", "python3 game"].any
    (fun c => pyIn c command)

/-- The GUI-opener rewrite loop of `execute_command`: each of
`xdg-open`/`open`/`start` found in the command is replaced by `termux-open`
when available, else the step fails asking for `termux-tools`. -/
def guiRewrite (present : Bool) (command : String) : List String → Option String
  | [] => some command
  | g :: rest =>
    if pyIn g command then
      if present then guiRewrite present (pyReplace command g "termux-open") rest
      else none
    else guiRewrite present command rest

/-- The tail of `AIAssistant.execute_command` after the directory/heredoc
dispatch: gcc fix-up, `./`/python existence pre-checks, GUI rewrite, then the
interactive (60 s, uncaptured, timeout = graceful stop) or captured (300 s,
timeout = failure) run. -/
def executeRest (sys : Runner) (fs : FS) (wd command0 : String) :
    (Int × String × String) × FS × String :=
  let command :=
    if pyIn "gcc " command0 ∧ pyIn ".c" command0 then fix_gcc_command fs wd command0
    else command0
  if pyStartswith command "./" then
    let exec_name := ((pySplitWs command).headD "").drop 2
    match check_file_exists fs wd exec_name with
    | (false, _) =>
      ((1, "", "Executable '" ++ exec_name ++ "' not found in " ++ wd), fs, wd)
    | (true, full_path) => executeRun sys (fs.chmod full_path) wd command
  else if pyStartswith command "python " ∨ pyStartswith command "python3 " then
    let parts := pySplitWs command
    if parts.length > 1 then
      let python_file := parts[1]!
      if ¬ (check_file_exists fs wd python_file).1 then
        ((1, "", "Python file '" ++ python_file ++ "' not found in " ++ wd), fs, wd)
      else executeRun sys fs wd command
    else executeRun sys fs wd command
  else executeRun sys fs wd command
where
  /-- GUI rewrite followed by the timed run. -/
  executeRun (sys : Runner) (fs : FS) (wd command : String) :
      (Int × String × String) × FS × String :=
    match guiRewrite sys.termuxOpenPresent command ["xdg-open", "open", "start"] with
    | none => ((1, "", "Install termux-tools: pkg install termux-tools"), fs, wd)
    | some command =>
      if isInteractiveCmd command then
        match sys.withTimeout command wd 60 with
        | some (rc, _, _) => ((rc, "Interactive program completed", ""), fs, wd)
        | none => ((0, "Animation stopped after 60 seconds", ""), fs, wd)
      else
        match sys.withTimeout command wd 300 with
        | some res => (res, fs, wd)
        | none => ((1, "", "Command timed out after 5 minutes"), fs, wd)

/-- Model of `AIAssistant.execute_command`. -/
def execute_command (sys : Runner) (fs : FS) (wd command : String) :
    (Int × String × String) × FS × String :=
  if pyIn " && cd " command ∨ pyStartswith command "cd " then
    handle_directory_operations sys fs wd command
  else if pyIn "<<" command ∧ pyIn "EOF" command then
    handle_heredoc_creation sys fs wd command
  else executeRest sys fs wd command

/-- JSON values, for the model of Python `json.loads` (numbers restricted to
integers; none of the verified claims involves numeric payloads). -/
inductive JVal where
  | null : JVal
  | bool : Bool → JVal
  | num : Int → JVal
  | str : String → JVal
  | arr : List JVal → JVal
  | obj : List (String × JVal) → JVal
deriving Inhabited

/-- The two brace characters, kept out of string literals. -/
def lbrace : Char := Char.ofNat 123

/-- Closing brace character. -/
def rbrace : Char := Char.ofNat 125

/-- JSON insignificant whitespace. -/
def jsonWs (c : Char) : Bool :=
  c = ' ' ∨ c = '\n' ∨ c = '\t' ∨ c = '\r'

/-- String-literal body parser for the JSON model: handles the simple escape
sequences; `\u` escapes and unescaped quotes end in failure (a strict subset
of `json.loads`, adequate for the inputs the claims exercise). -/
def pString (fuel : Nat) (s : List Char) (acc : List Char) : Option (String × List Char) :=
  match fuel, s with
  | 0, _ => none
  | _, [] => none
  | fuel + 1, c :: rest =>
    if c = '"' then some (⟨acc.reverse⟩, rest)
    else if c = '\\' then
      match rest with
      | '"' :: r => pString fuel r ('"' :: acc)
      | '\\' :: r => pString fuel r ('\\' :: acc)
      | '/' :: r => pString fuel r ('/' :: acc)
      | 'n' :: r => pString fuel r ('\n' :: acc)
      | 't' :: r => pString fuel r ('\t' :: acc)
      | 'r' :: r => pString fuel r ('\r' :: acc)
      | 'b' :: r => pString fuel r (Char.ofNat 8 :: acc)
      | 'f' :: r => pString fuel r (Char.ofNat 12 :: acc)
      | _ => none
    else pString fuel rest (c :: acc)

/-- Digit-run parser. -/
def pDigits (s : List Char) : List Char × List Char :=
  (s.takeWhile Char.isDigit, s.dropWhile Char.isDigit)

/-- Decimal digits to a natural number. -/
def digitsToNat : List Char → Nat → Nat
  | [], acc => acc
  | d :: ds, acc => digitsToNat ds (acc * 10 + (d.toNat - 48))

/-- Integer-literal parser for the JSON model (fractions and exponents are
rejected rather than read as floats). -/
def pInt (s : List Char) : Option (Int × List Char) :=
  let (neg, s1) := if s.headD ' ' = '-' then (true, s.tail) else (false, s)
  let (ds, rest) := pDigits s1
  if ds = [] then none
  else if rest.headD ' ' = '.' ∨ rest.headD ' ' = 'e' ∨ rest.headD ' ' = 'E' then none
  else
    let n : Int := Int.ofNat (digitsToNat ds 0)
    some (if neg then -n else n, rest)

mutual

/-- Recursive-descent value parser of the `json.loads` model. -/
def pJVal (fuel : Nat) (s : List Char) : Option (JVal × List Char) :=
  match fuel with
  | 0 => none
  | fuel + 1 =>
    let s := s.dropWhile jsonWs
    match s with
    | [] => none
    | c :: rest =>
      if c = 'n' then
        if rest.take 3 = ['u', 'l', 'l'] then some (.null, rest.drop 3) else none
      else if c = 't' then
        if rest.take 3 = ['r', 'u', 'e'] then some (.bool true, rest.drop 3) else none
      else if c = 'f' then
        if rest.take 4 = ['a', 'l', 's', 'e'] then some (.bool false, rest.drop 4) else none
      else if c = '"' then
        match pString (rest.length + 1) rest [] with
        | some (str, r) => some (.str str, r)
        | none => none
      else if c = '[' then
        let r := rest.dropWhile jsonWs
        if r.headD ' ' = ']' then some (.arr [], r.tail)
        else
          match pJArr fuel rest with
          | some (items, r) => some (.arr items, r)
          | none => none
      else if c = lbrace then
        let r := rest.dropWhile jsonWs
        if r.headD ' ' = rbrace then some (.obj [], r.tail)
        else
          match pJObj fuel rest with
          | some (kvs, r) => some (.obj kvs, r)
          | none => none
      else
        match pInt (c :: rest) with
        | some (n, r) => some (.num n, r)
        | none => none

/-- Array-element list parser (after `[`, at least one element). -/
def pJArr (fuel : Nat) (s : List Char) : Option (List JVal × List Char) :=
  match fuel with
  | 0 => none
  | fuel + 1 =>
    match pJVal fuel s with
    | none => none
    | some (v, r) =>
      let r := r.dropWhile jsonWs
      match r with
      | ',' :: r2 =>
        match pJArr fuel r2 with
        | some (vs, r3) => some (v :: vs, r3)
        | none => none
      | ']' :: r2 => some ([v], r2)
      | _ => none

/-- Object-member list parser (after the opening brace, at least one member). -/
def pJObj (fuel : Nat) (s : List Char) : Option (List (String × JVal) × List Char) :=
  match fuel with
  | 0 => none
  | fuel + 1 =>
    let s := s.dropWhile jsonWs
    match s with
    | '"' :: rest =>
      match pString (rest.length + 1) rest [] with
      | none => none
      | some (key, r) =>
        let r := r.dropWhile jsonWs
        match r with
        | ':' :: r2 =>
          match pJVal fuel r2 with
          | none => none
          | some (v, r3) =>
            let r3 := r3.dropWhile jsonWs
            match r3 with
            | ',' :: r4 =>
              match pJObj fuel r4 with
              | some (kvs, r5) => some ((key, v) :: kvs, r5)
              | none => none
            | c :: r4 => if c = rbrace then some ([(key, v)], r4) else none
            | [] => none
        | _ => none
    | _ => none

end

/-- Model of `json.loads`: parse one value and require only whitespace to
remain. -/
def jsonParse (s : String) : Option JVal :=
  match pJVal (s.data.length + 1) s.data with
  | some (v, rest) => if rest.dropWhile jsonWs = [] then some v else none
  | none => none

/-- Model of `re.search(r'\x7b.*\x7d', s, re.DOTALL)`: the greedy match runs
from the first opening brace to the last closing brace, provided the latter
comes strictly later. -/
def extractBrace (s : String) : Option String :=
  let l := s.data
  match l.findIdx? (fun c => c = lbrace), (l.reverse.findIdx? (fun c => c = rbrace)) with
  | some i, some jr =>
    let j := l.length - 1 - jr
    if i < j then some ⟨(l.drop i).take (j - i + 1)⟩ else none
  | _, _ => none

/-- The command-shaped fallback of `parse_response` built when no brace block
is found: a single `command` step around the stripped text. -/
def commandFallback (t : String) : JVal :=
  .obj [("analysis", .str "Direct execution"),
        ("steps", .arr [.obj [("description", .str t), ("command", .str t),
                              ("type", .str "command")]]),
        ("summary", .str "Command execution")]

/-- The info-shaped fallback of `parse_response` built when decoding raises:
a single `info` step around the raw (unstripped) response. -/
def infoFallback (r : String) : JVal :=
  .obj [("analysis", .str "Text response"),
        ("steps", .arr [.obj [("description", .str r), ("command", .str ""),
                              ("type", .str "info")]]),
        ("summary", .str (r.take 100))]

/-- Model of `AIAssistant.parse_response`: strip, search for a brace block,
`json.loads` it (any decode error yields the info fallback), and with no
brace block at all build the command fallback. -/
def parse_response (response : String) : JVal :=
  let response_clean := pyStrip response
  match extractBrace response_clean with
  | some json_str =>
    match jsonParse json_str with
    | some v => v
    | none => infoFallback response
  | none => commandFallback response_clean

/-- Association-list lookup on JSON object members. -/
def jLookup : List (String × JVal) → String → Option JVal
  | [], _ => none
  | (k, v) :: rest, key => if k = key then some v else jLookup rest key

/-- `plan['steps']` when the plan decoded to an object with a list there. -/
def jSteps (v : JVal) : Option (List JVal) :=
  match v with
  | .obj kvs =>
    match jLookup kvs "steps" with
    | some (.arr l) => some l
    | _ => none
  | _ => none

/-- The `type` of the first step of a plan value, when present. -/
def firstStepType (v : JVal) : Option String :=
  match jSteps v with
  | some (.obj kvs :: _) =>
    match jLookup kvs "type" with
    | some (.str t) => some t
    | _ => none
  | _ => none

/-- The `description` of the first step of a plan value, when present. -/
def firstStepDescription (v : JVal) : Option String :=
  match jSteps v with
  | some (.obj kvs :: _) =>
    match jLookup kvs "description" with
    | some (.str t) => some t
    | _ => none
  | _ => none

/-- A plan step as `execute_step` reads it: the values of
`step.get('type', 'command')`, `get('description', '')`, `get('command', '')`,
`get('filename', '')`, `get('content', '')`. -/
structure Step where
  type : String := "command"
  description : String := ""
  command : String := ""
  filename : String := ""
  content : String := ""

/-- The python-file pre-check of `execute_step`: the first `.py` token of the
command, when there is one, must exist. -/
def pyFileMissing (fs : FS) (wd command : String) : Bool :=
  match (pySplitWs command).find? (fun part => pyEndswith part ".py") with
  | some part => ¬ (check_file_exists fs wd part).1
  | none => false

/-- Model of `AIAssistant.execute_step`: `file_create` requires truthy
filename and content; `info` always succeeds; a non-empty command gets the
`./`/python pre-checks and then runs, success being exit code zero; an empty
command succeeds vacuously. -/
def execute_step (sys : Runner) (fs : FS) (wd : String) (step : Step) :
    Bool × FS × String :=
  if step.type = "file_create" then
    if step.filename ≠ "" ∧ step.content ≠ "" then
      let (ok, fs') := create_file_with_content fs wd step.filename step.content
      (ok, fs', wd)
    else (false, fs, wd)
  else if step.type = "info" then (true, fs, wd)
  else if step.command ≠ "" then
    if pyStartswith step.command "./" ∧
        ¬ (check_file_exists fs wd (((pySplitWs step.command).headD "").drop 2)).1 then
      (false, fs, wd)
    else if ¬ pyStartswith step.command "./" ∧ pyIn "python3 " step.command ∧
        pyFileMissing fs wd step.command then
      (false, fs, wd)
    else
      let ((rc, _, _), fs', wd') := execute_command sys fs wd step.command
      (rc = 0, fs', wd')
  else (true, fs, wd)

/-- The `for i, step in enumerate(plan['steps'], 1)` loop of
`process_request`: every step runs in order in the state left by its
predecessor, and each step's success flag is recorded. -/
def runPlanSteps (sys : Runner) : FS → String → List Step → List Bool × FS × String
  | fs, wd, [] => ([], fs, wd)
  | fs, wd, step :: rest =>
    let (ok, fs', wd') := execute_step sys fs wd step
    let (results, fs'', wd'') := runPlanSteps sys fs' wd' rest
    (ok :: results, fs'', wd'')

/-- The `success`/`len(plan['steps'])` tally printed at the end of the loop. -/
def planTally (results : List Bool) : Nat :=
  results.count true

/-- Credentials and transport oracle for `call_ai_api`: a key is used only
when truthy (non-empty), and `…Resp` is the content of a status-200 response
when the provider answers. -/
structure Api where
  openrouter_key : Option String
  gemini_key : Option String
  openrouterResp : Option String
  geminiResp : Option String

/-- Python truthiness of an optional string. -/
def keyTruthy : Option String → Bool
  | some s => s ≠ ""
  | none => false

/-- The message printed by `call_ai_api` when it gives up. -/
def noKeysMsg : String :=
  "❌ No API keys configured. Set OPENROUTER_API_KEY or GEMINI_API_KEY"

/-- Model of `AIAssistant.call_ai_api`: OpenRouter first, then Gemini, then a
single error report and `None`.  The second component is the list of error
messages printed. -/
def call_ai_api (api : Api) : Option String × List String :=
  let viaOpenrouter :=
    if keyTruthy api.openrouter_key then api.openrouterResp else none
  match viaOpenrouter with
  | some content => (some content, [])
  | none =>
    let viaGemini := if keyTruthy api.gemini_key then api.geminiResp else none
    match viaGemini with
    | some content => (some content, [])
    | none => (none, [noKeysMsg])

/-- One plan step converted from its decoded JSON object, with the `.get`
defaults of `execute_step`; a non-object step (which would raise in Python)
yields `none`. -/
def jToStep (v : JVal) : Option Step :=
  match v with
  | .obj kvs =>
    let getStr := fun (k d : String) =>
      match jLookup kvs k with
      | some (.str s) => s
      | _ => d
    some { type := getStr "type" "command", description := getStr "description" "",
           command := getStr "command" "", filename := getStr "filename" "",
           content := getStr "content" "" }
  | _ => none

/-- The executable step list of a decoded plan: present only when the plan is
an object whose `steps` member is a list of objects (otherwise the Python
loop either never runs or raises out of the request). -/
def planStepList (v : JVal) : Option (List Step) :=
  match jSteps v with
  | some l => l.mapM jToStep
  | none => none

/-- Observable outcome of one `process_request` call: the error messages the
API layer printed, and the tally `(succeeded, total)` when a step loop ran. -/
structure ReqOutcome where
  apiErrors : List String
  ranSteps : List Bool
  tally : Option (Nat × Nat)

/-- Model of `AIAssistant.process_request`: ask the model, give up silently
(after the API layer's report) when no response could be obtained, else parse
and run the plan steps sequentially, tallying successes. -/
def process_request (sys : Runner) (api : Api) (fs : FS) (wd : String) :
    ReqOutcome × FS × String :=
  match call_ai_api api with
  | (none, logs) => (⟨logs, [], none⟩, fs, wd)
  | (some resp, logs) =>
    let plan := parse_response resp
    match planStepList plan with
    | some steps =>
      let (results, fs', wd') := runPlanSteps sys fs wd steps
      (⟨logs, results, some (planTally results, steps.length)⟩, fs', wd')
    | none => (⟨logs, [], none⟩, fs, wd)

/-- Model of `main`: exit 1 without a request argument; otherwise build the
assistant (initial directory = `argv[2]` when given) and process the request.
`interrupt` models a `KeyboardInterrupt` escaping `process_request` (exit
130); `process_request` itself catches every ordinary exception, so normal
completion falls off the end of `main` with exit status 0. -/
def mainRun (sys : Runner) (api : Api) (fs : FS) (cwd home : String)
    (argv : List String) (interrupt : Bool) : Nat × Option ReqOutcome :=
  if argv.length < 2 then (1, none)
  else
    let initial_dir := argv.get? 2
    let wd := initWorkingDir fs cwd home initial_dir
    if interrupt then (130, none)
    else
      let (outcome, _, _) := process_request sys api fs wd
      (0, some outcome)

/-- A path that is absolute and a fixed point of lexical normalisation — the
shape `working_dir` is claimed to keep. -/
def isNormAbs (p : String) : Prop :=
  isabs p = true ∧ normpathStr p = p

/-- `p` lies under the root `r` (is `r` itself or a descendant). -/
def isUnderRoot (p r : String) : Prop :=
  p = r ∨ pyStartswith p (r ++ "/") = true

/-- `p` lies under one of the deny-listed roots. -/
def isUnderRestricted (p : String) : Prop :=
  ∃ r ∈ restricted, isUnderRoot p r

/-- Fixture filesystem for the concrete witnesses: a small tree with a home
directory, a `/proc` entry, an executable and a math-using C source. -/
def wFs : FS :=
  ⟨["/", "/home", "/home/user", "/proc", "/proc/net"],
   [("/home/user/donut", "binary"),
    ("/home/user/a.c", "int main() \x7b return sqrt(2); \x7d")],
   [], fun _ => true⟩

/-- Fixture filesystem in which `ab` under the home directory is a file, so
that `mkdir -p ab` fails there. -/
def wFsBlocked : FS :=
  ⟨["/", "/home", "/home/user"], [("/home/user/ab", "a file in the way")],
   [], fun _ => true⟩

/-- Runner fixture whose every command takes 1000 seconds. -/
def wSysSlow : Runner := ⟨fun _ _ => 1000, fun _ _ => (0, "out", ""), true⟩

/-- Runner fixture whose every command finishes immediately and succeeds. -/
def wSysFast : Runner := ⟨fun _ _ => 1, fun _ _ => (0, "out", ""), true⟩

/-- Api fixture with no credentials configured. -/
def wApiNone : Api := ⟨none, none, none, none⟩

/-- Three-step fixture plan whose middle step fails (`file_create` with empty
content), used in the continue-on-failure witness. -/
def wSteps3 : List Step :=
  [{ type := "info", description := "step one" },
   { type := "file_create", filename := "x.txt", content := "" },
   { type := "info", description := "step three" }]

/-- A path component that lexical normalisation leaves alone: non-empty,
not `.`, not `..`, and slash-free. -/
def CleanComp (x : List Char) : Prop :=
  x ≠ [] ∧ x ≠ ['.'] ∧ x ≠ ['.', '.'] ∧ '/' ∉ x

/-! ## Library lemmas about the string primitives -/

theorem strMk_data (s : String) : (⟨s.data⟩ : String) = s := rfl

theorem strData_mk (l : List Char) : (⟨l⟩ : String).data = l := rfl

theorem pyIn_iff {sub s : String} : pyIn sub s = true ↔ sub.data <:+: s.data := by
  simp [pyIn]

theorem pyIn_false_iff {sub s : String} : pyIn sub s = false ↔ ¬ sub.data <:+: s.data := by
  simp [pyIn]

theorem pyStartswith_iff {s pre : String} :
    pyStartswith s pre = true ↔ pre.data <+: s.data := by
  simp [pyStartswith, List.isPrefixOf_iff_prefix]

theorem pyStartswith_false_iff {s pre : String} :
    pyStartswith s pre = false ↔ ¬ pre.data <+: s.data := by
  rw [← pyStartswith_iff]
  cases h : pyStartswith s pre <;> simp [h]

theorem splitSkip_ne_nil (c : Char) (cs l : List Char) (skip : Nat) (acc : List Char) :
    splitSkip c cs l skip acc ≠ [] := by
  induction l generalizing skip acc with
  | nil => simp [splitSkip]
  | cons x xs ih =>
    match skip with
    | skip + 1 => exact ih skip acc
    | 0 =>
      rw [splitSkip]
      split
      · simp
      · exact ih 0 (x :: acc)

theorem splitSkip_not_infix (c : Char) (cs : List Char) :
    ∀ (l acc : List Char), ¬ ((c :: cs) <:+: l) →
      splitSkip c cs l 0 acc = [acc.reverse ++ l] := by
  intro l
  induction l with
  | nil => intro acc _; simp [splitSkip]
  | cons x xs ih =>
    intro acc h
    rw [splitSkip]
    split
    · rename_i hpre
      rw [List.isPrefixOf_iff_prefix] at hpre
      exact absurd hpre.isInfix h
    · have htail : xs <:+: x :: xs := ⟨[x], [], by simp⟩
      rw [ih (x :: acc) (fun hinf => h (hinf.trans htail))]
      simp

theorem splitSkip_skip_append (c : Char) (cs : List Char) :
    ∀ (pre l acc : List Char), splitSkip c cs (pre ++ l) pre.length acc =
      splitSkip c cs l 0 acc := by
  intro pre
  induction pre with
  | nil => intro l acc; rfl
  | cons p ps ih => intro l acc; exact ih l acc

theorem splitSkip_match (c : Char) (cs l : List Char) (acc : List Char) :
    splitSkip c cs ((c :: cs) ++ l) 0 acc =
      acc.reverse :: splitSkip c cs l 0 [] := by
  have hpre : (c :: cs).isPrefixOf (c :: (cs ++ l)) = true := by
    rw [List.isPrefixOf_iff_prefix]
    exact ⟨l, by simp⟩
  simp only [List.cons_append]
  rw [splitSkip]
  simp only [hpre, if_true]
  congr 1
  exact splitSkip_skip_append c cs cs l []

theorem splitSkip_length_ge_two (c : Char) (cs : List Char) :
    ∀ (l acc : List Char), (c :: cs) <:+: l →
      2 ≤ (splitSkip c cs l 0 acc).length := by
  intro l
  induction l with
  | nil => intro acc h; exact absurd (List.eq_nil_of_infix_nil h) (by simp)
  | cons x xs ih =>
    intro acc h
    rw [splitSkip]
    split
    · have hne := splitSkip_ne_nil c cs xs cs.length []
      have : 1 ≤ (splitSkip c cs xs cs.length []).length :=
        Nat.one_le_iff_ne_zero.mpr (by simpa [List.length_eq_zero] using hne)
      simpa using Nat.succ_le_succ this
    · rename_i hpre
      rcases List.infix_cons_iff.mp h with hp | hinf
      · exact absurd (List.isPrefixOf_iff_prefix.mpr hp) (by simpa using hpre)
      · exact ih (x :: acc) hinf

theorem intercalate_pair (sep a b : List Char) :
    List.intercalate sep [a, b] = a ++ sep ++ b := by
  simp [List.intercalate, List.intersperse]

theorem intercalate_two_cons (sep a b : List Char) (rest : List (List Char)) :
    List.intercalate sep (a :: b :: rest) =
      a ++ sep ++ List.intercalate sep (b :: rest) := by
  simp [List.intercalate, List.intersperse]

theorem strData_eq_nil {s : String} : s.data = [] ↔ s = "" := by
  constructor
  · intro h; cases s; simp_all
  · intro h; rw [h]

theorem pyReplace_eq_of_data {old : String} {c : Char} {cs : List Char}
    (s new : String) (hold : old.data = c :: cs) :
    pyReplace s old new = ⟨List.intercalate new.data (splitSkip c cs s.data 0 [])⟩ := by
  rw [pyReplace.eq_def, hold]

theorem data_ne_nil_of_ne_empty {s : String} (h : s ≠ "") : ∃ c cs, s.data = c :: cs := by
  cases hd : s.data with
  | nil => exact absurd (strData_eq_nil.mp hd) h
  | cons c cs => exact ⟨c, cs, rfl⟩

theorem pyReplace_of_not_in {s old : String} (new : String)
    (hne : old ≠ "") (h : pyIn old s = false) : pyReplace s old new = s := by
  obtain ⟨c, cs, hold⟩ := data_ne_nil_of_ne_empty hne
  rw [pyReplace_eq_of_data s new hold,
    splitSkip_not_infix c cs s.data [] (by rw [← hold]; exact pyIn_false_iff.mp h)]
  simp [List.intercalate]

theorem pyReplace_strip_pre {pre rest : String}
    (hne : pre ≠ "") (h : pyIn pre rest = false) :
    pyReplace (pre ++ rest) pre "" = rest := by
  obtain ⟨c, cs, hold⟩ := data_ne_nil_of_ne_empty hne
  rw [pyReplace_eq_of_data (pre ++ rest) "" hold]
  have hdata : (pre ++ rest).data = (c :: cs) ++ rest.data := by
    rw [String.data_append, hold]
  rw [hdata, splitSkip_match,
    splitSkip_not_infix c cs rest.data [] (by rw [← hold]; exact pyIn_false_iff.mp h)]
  simp [intercalate_pair]

theorem pyReplace_contains_new {s old : String} (new : String)
    (hne : old ≠ "") (h : pyIn old s = true) :
    new.data <:+: (pyReplace s old new).data := by
  obtain ⟨c, cs, hold⟩ := data_ne_nil_of_ne_empty hne
  have hinf : (c :: cs) <:+: s.data := by rw [← hold]; exact pyIn_iff.mp h
  have hlen := splitSkip_length_ge_two c cs s.data [] hinf
  rw [pyReplace_eq_of_data s new hold]
  cases hparts : splitSkip c cs s.data 0 [] with
  | nil => rw [hparts] at hlen; simp at hlen
  | cons a tail =>
    cases tail with
    | nil => rw [hparts] at hlen; simp at hlen
    | cons b rest =>
      show new.data <:+: List.intercalate new.data (a :: b :: rest)
      rw [intercalate_two_cons]
      exact ⟨a, List.intercalate new.data (b :: rest), by simp⟩

theorem dropWhile_eq_self_of_head {p : Char → Bool} {l : List Char}
    (h : ∀ a, l.head? = some a → p a = false) : l.dropWhile p = l := by
  match l with
  | [] => rfl
  | x :: xs => simp [List.dropWhile_cons, h x rfl]

theorem pyStrip_eq_self {s : String}
    (h1 : ∀ a, s.data.head? = some a → a.isWhitespace = false)
    (h2 : ∀ a, s.data.getLast? = some a → a.isWhitespace = false) :
    pyStrip s = s := by
  unfold pyStrip
  rw [dropWhile_eq_self_of_head h1,
    dropWhile_eq_self_of_head (by simpa [List.head?_reverse] using h2)]
  simp

theorem pyStrip_of_no_ws {s : String}
    (h : ∀ a ∈ s.data, a.isWhitespace = false) : pyStrip s = s :=
  pyStrip_eq_self
    (fun a ha => h a (by
      cases hl : s.data with
      | nil => simp [hl] at ha
      | cons x xs => rw [hl] at ha; simp at ha; simp [hl, ha]))
    (fun a ha => h a (by
      obtain ⟨hne, heq⟩ := List.mem_getLast?_eq_getLast (show a ∈ s.data.getLast? by simp [ha])
      rw [heq]
      exact List.getLast_mem hne))

/-! ## Lemmas about the path model -/

theorem splitChar_ne_nil (c : Char) (l : List Char) : splitChar c l ≠ [] := by
  induction l with
  | nil => simp [splitChar]
  | cons x xs ih =>
    rw [splitChar]
    split
    · simp
    · cases hs : splitChar c xs with
      | nil => exact absurd hs ih
      | cons p ps => simp [hs]

theorem intercalate_single (sep a : List Char) :
    List.intercalate sep [a] = a := by
  simp [List.intercalate]

theorem splitChar_not_mem (c : Char) (l : List Char) :
    ∀ p ∈ splitChar c l, c ∉ p := by
  induction l with
  | nil => intro p hp; simp [splitChar] at hp; simp [hp]
  | cons x xs ih =>
    intro p hp
    rw [splitChar] at hp
    by_cases hx : x = c
    · simp only [hx, if_true] at hp
      rcases List.mem_cons.mp hp with hp | hp
      · simp [hp]
      · exact ih p hp
    · simp only [hx, if_false] at hp
      cases hs : splitChar c xs with
      | nil => exact absurd hs (splitChar_ne_nil c xs)
      | cons q qs =>
        rw [hs] at hp
        rcases List.mem_cons.mp hp with hp | hp
        · intro hc
          rw [hp] at hc
          rcases List.mem_cons.mp hc with hc | hc
          · exact hx hc.symm
          · exact ih q (by rw [hs]; exact List.mem_cons_self q qs) hc
        · exact ih p (by rw [hs]; exact List.mem_cons_of_mem q hp)

theorem splitChar_single {c : Char} {l : List Char} (h : c ∉ l) :
    splitChar c l = [l] := by
  induction l with
  | nil => rfl
  | cons x xs ih =>
    rw [splitChar]
    have hx : ¬ x = c := fun he => h (by simp [he])
    simp only [hx, if_false]
    rw [ih (fun hm => h (List.mem_cons_of_mem x hm))]

theorem splitChar_append_cons {c : Char} {p : List Char} (rest : List Char)
    (h : c ∉ p) : splitChar c (p ++ c :: rest) = p :: splitChar c rest := by
  induction p with
  | nil => simp [splitChar]
  | cons x xs ih =>
    have hx : ¬ x = c := fun he => h (by simp [he])
    rw [List.cons_append, splitChar]
    simp only [hx, if_false]
    rw [ih (fun hm => h (List.mem_cons_of_mem x hm))]

theorem splitChar_intercalate {c : Char} :
    ∀ (parts : List (List Char)), parts ≠ [] → (∀ p ∈ parts, c ∉ p) →
      splitChar c (List.intercalate [c] parts) = parts := by
  intro parts
  induction parts with
  | nil => intro h _; exact absurd rfl h
  | cons p ps ih =>
    intro _ hmem
    cases ps with
    | nil =>
      rw [intercalate_single]
      exact splitChar_single (hmem p (by simp))
    | cons q qs =>
      rw [intercalate_two_cons]
      have : p ++ [c] ++ List.intercalate [c] (q :: qs)
          = p ++ c :: List.intercalate [c] (q :: qs) := by simp
      rw [this, splitChar_append_cons _ (hmem p (by simp)),
        ih (by simp) (fun r hr => hmem r (List.mem_cons_of_mem p hr))]

theorem splitChar_replicate (c : Char) (k : Nat) (l : List Char) :
    splitChar c (List.replicate k c ++ l) = List.replicate k [] ++ splitChar c l := by
  induction k with
  | zero => simp
  | succ n ih => simp [List.replicate_succ, splitChar, ih]

theorem procComps_empties (s : Nat) (acc comps : List (List Char)) (k : Nat) :
    procComps s acc (List.replicate k [] ++ comps) = procComps s acc comps := by
  induction k with
  | zero => simp
  | succ n ih => simp [List.replicate_succ, procComps, ih]

theorem procComps_clean_all (s : Nat) :
    ∀ (comps acc : List (List Char)), (∀ x ∈ comps, CleanComp x) →
      procComps s acc comps = acc.reverse ++ comps := by
  intro comps
  induction comps with
  | nil => intro acc _; simp [procComps]
  | cons comp rest ih =>
    intro acc hclean
    obtain ⟨h1, h2, h3, _⟩ := hclean comp (by simp)
    have hskip : ¬ (comp = [] ∨ comp = ['.']) := by simp [h1, h2]
    have hcond : comp ≠ ['.', '.'] ∨ (s = 0 ∧ acc = []) ∨
        acc.head? = some ['.', '.'] := Or.inl h3
    simp only [procComps]
    rw [if_neg hskip, if_pos hcond,
      ih (comp :: acc) (fun x hx => hclean x (List.mem_cons_of_mem comp hx))]
    simp

theorem procComps_mem_clean {s : Nat} (hs : s ≠ 0) :
    ∀ (comps acc : List (List Char)), (∀ x ∈ acc, CleanComp x) →
      (∀ x ∈ comps, '/' ∉ x) →
      ∀ x ∈ procComps s acc comps, CleanComp x := by
  intro comps
  induction comps with
  | nil =>
    intro acc hacc _ x hx
    simp only [procComps] at hx
    exact hacc x (List.mem_reverse.mp hx)
  | cons comp rest ih =>
    intro acc hacc hcomps x hx
    simp only [procComps] at hx
    by_cases hskip : comp = [] ∨ comp = ['.']
    · rw [if_pos hskip] at hx
      exact ih acc hacc (fun y hy => hcomps y (List.mem_cons_of_mem comp hy)) x hx
    · rw [if_neg hskip] at hx
      push_neg at hskip
      by_cases hdd : comp = ['.', '.']
      · have hcond : ¬ (comp ≠ ['.', '.'] ∨ (s = 0 ∧ acc = []) ∨
            acc.head? = some ['.', '.']) := by
          intro hor
          rcases hor with h | h | h
          · exact h hdd
          · exact hs h.1
          · cases acc with
            | nil => simp at h
            | cons a as =>
              simp only [List.head?_cons, Option.some_inj] at h
              exact (hacc a (by simp)).2.2.1 h
        rw [if_neg hcond] at hx
        cases acc with
        | nil =>
          exact ih [] (by simp) (fun y hy => hcomps y (List.mem_cons_of_mem comp hy)) x hx
        | cons a as =>
          exact ih as (fun y hy => hacc y (List.mem_cons_of_mem a hy))
            (fun y hy => hcomps y (List.mem_cons_of_mem comp hy)) x hx
      · have hcond : comp ≠ ['.', '.'] ∨ (s = 0 ∧ acc = []) ∨
            acc.head? = some ['.', '.'] := Or.inl hdd
        rw [if_pos hcond] at hx
        have hcompclean : CleanComp comp :=
          ⟨hskip.1, hskip.2, hdd, hcomps comp (by simp)⟩
        refine ih (comp :: acc) ?_ (fun y hy => hcomps y (List.mem_cons_of_mem comp hy)) x hx
        intro y hy
        rcases List.mem_cons.mp hy with hy | hy
        · rw [hy]; exact hcompclean
        · exact hacc y hy

theorem leadSlashes_one_or_two {p : List Char} (h : ['/'] <+: p) :
    leadSlashes p = 1 ∨ leadSlashes p = 2 := by
  rw [leadSlashes, if_pos (List.isPrefixOf_iff_prefix.mpr h)]
  split
  · exact Or.inr rfl
  · exact Or.inl rfl

theorem intercalate_cons_head (sep x : List Char) (rest : List (List Char)) :
    ∃ t, List.intercalate sep (x :: rest) = x ++ t := by
  cases rest with
  | nil => exact ⟨[], by rw [intercalate_single]; simp⟩
  | cons y ys => exact ⟨sep ++ List.intercalate sep (y :: ys), by
      rw [intercalate_two_cons]; simp⟩

theorem normpathL_abs_eq {p : List Char} (h : ['/'] <+: p) :
    normpathL p = List.replicate (leadSlashes p) '/' ++
      List.intercalate ['/'] (procComps (leadSlashes p) [] (splitChar '/' p)) := by
  have hp : p ≠ [] := by rintro rfl; simp at h
  have hk : leadSlashes p = 1 ∨ leadSlashes p = 2 := leadSlashes_one_or_two h
  have hres : List.replicate (leadSlashes p) '/' ++
      List.intercalate ['/'] (procComps (leadSlashes p) [] (splitChar '/' p)) ≠ [] := by
    rcases hk with hk | hk <;> simp [hk, List.replicate_succ]
  rw [normpathL, if_neg hp]
  simp only [if_neg hres]

theorem normpathL_abs_clean {p : List Char} (h : ['/'] <+: p) :
    ∀ x ∈ procComps (leadSlashes p) [] (splitChar '/' p), CleanComp x := by
  have hk : leadSlashes p = 1 ∨ leadSlashes p = 2 := leadSlashes_one_or_two h
  have hkne : leadSlashes p ≠ 0 := by rcases hk with hk | hk <;> simp [hk]
  exact procComps_mem_clean hkne (splitChar '/' p) [] (by simp)
    (splitChar_not_mem '/' p)

theorem normpathL_abs_prefix {p : List Char} (h : ['/'] <+: p) :
    ['/'] <+: normpathL p := by
  rw [normpathL_abs_eq h]
  rcases leadSlashes_one_or_two h with hk | hk <;>
    simp [hk, List.replicate_succ, List.cons_prefix_cons]

theorem splitChar_replicate_nil (c : Char) (k : Nat) :
    splitChar c (List.replicate k c) = List.replicate k [] ++ [[]] := by
  induction k with
  | zero => rfl
  | succ n ih => simp [List.replicate_succ, splitChar, ih]

theorem leadSlashes_replicate_clean {k : Nat} (hk : k = 1 ∨ k = 2)
    {nc : List (List Char)} (hclean : ∀ x ∈ nc, CleanComp x) :
    leadSlashes (List.replicate k '/' ++ List.intercalate ['/'] nc) = k := by
  cases nc with
  | nil =>
    rcases hk with hk | hk <;>
      simp [hk, leadSlashes, List.intercalate, List.replicate_succ, List.isPrefixOf]
  | cons x rest =>
    obtain ⟨t, ht⟩ := intercalate_cons_head ['/'] x rest
    obtain ⟨hxne, _, _, hxslash⟩ := hclean x (by simp)
    obtain ⟨x0, xtail, hx⟩ := List.exists_cons_of_ne_nil hxne
    have hx0 : x0 ≠ '/' := by
      intro he
      exact hxslash (by rw [hx, he]; simp)
    rw [ht, hx]
    have hx0' : ('/' == x0) = false := beq_eq_false_iff_ne.mpr (fun he => hx0 (Eq.symm he))
    rcases hk with hk | hk <;> subst hk <;>
      simp [leadSlashes, List.replicate_succ, List.isPrefixOf, hx0']

theorem normpathL_idem {p : List Char} (h : ['/'] <+: p) :
    normpathL (normpathL p) = normpathL p := by
  have hk : leadSlashes p = 1 ∨ leadSlashes p = 2 := leadSlashes_one_or_two h
  have hclean := normpathL_abs_clean h
  have hq := normpathL_abs_eq h
  have hqpre : ['/'] <+: normpathL p := normpathL_abs_prefix h
  have hlead : leadSlashes (normpathL p) = leadSlashes p := by
    rw [hq]; exact leadSlashes_replicate_clean hk hclean
  rw [normpathL_abs_eq hqpre, hlead]
  cases hnc : procComps (leadSlashes p) [] (splitChar '/' p) with
  | nil =>
    rw [hq, hnc]
    have hnil : List.intercalate ['/'] ([] : List (List Char)) = [] := rfl
    have h2 : procComps (leadSlashes p) [] [[]] = [] := by simp [procComps]
    rw [hnil, List.append_nil, splitChar_replicate_nil, procComps_empties, h2,
      hnil, List.append_nil]
  | cons x rest =>
    rw [hq, hnc, splitChar_replicate]
    rw [splitChar_intercalate (x :: rest) (by simp)
      (fun r hr => (hclean r (by rw [hnc]; exact hr)).2.2.2)]
    rw [procComps_empties, procComps_clean_all]
    · simp
    · intro y hy
      exact hclean y (by rw [hnc]; exact hy)

theorem isabs_iff {s : String} : isabs s = true ↔ ['/'] <+: s.data := by
  rw [isabs, pyStartswith_iff]

theorem normpathStr_idem_abs {p : String} (h : isabs p = true) :
    normpathStr (normpathStr p) = normpathStr p := by
  unfold normpathStr
  rw [strData_mk]
  exact congrArg _ (normpathL_idem (isabs_iff.mp h))

theorem isabs_normpathStr {p : String} (h : isabs p = true) :
    isabs (normpathStr p) = true := by
  rw [isabs_iff]
  exact normpathL_abs_prefix (isabs_iff.mp h)

theorem isabs_append {a : String} (b : String) (h : isabs a = true) :
    isabs (a ++ b) = true := by
  rw [isabs_iff] at h ⊢
  rw [String.data_append]
  exact h.trans (List.prefix_append a.data b.data)

theorem isabs_pjoin {a : String} (b : String) (h : isabs a = true) :
    isabs (pjoin a b) = true := by
  rw [pjoin]
  split
  · assumption
  · split
    · exact isabs_append b h
    · exact isabs_append b (isabs_append "/" h)

theorem isNormAbs_abspath {cwd : String} (p : String) (h : isabs cwd = true) :
    isNormAbs (abspath cwd p) := by
  rw [abspath]
  split
  · rename_i habs
    exact ⟨isabs_normpathStr habs, normpathStr_idem_abs habs⟩
  · have habs : isabs (pjoin cwd p) = true := isabs_pjoin p h
    exact ⟨isabs_normpathStr habs, normpathStr_idem_abs habs⟩

theorem isUnderRestricted_any {p : String} (h : isUnderRestricted p) :
    restricted.any (fun r => pyStartswith p r) = true := by
  obtain ⟨r, hr, hunder⟩ := h
  rw [List.any_eq_true]
  refine ⟨r, hr, ?_⟩
  rcases hunder with rfl | hpre
  · exact pyStartswith_iff.mpr (List.prefix_refl _)
  · rw [pyStartswith_iff] at hpre ⊢
    refine List.IsPrefix.trans ?_ hpre
    rw [String.data_append]
    exact List.prefix_append r.data "/".data

/-! ## Lemmas about the embedded operations -/

theorem safe_change_eq_success {fs : FS} {wd t : String}
    (h1 : fs.existsP (abspath wd (if ¬ isabs t then pjoin wd t else t)) = true)
    (h2 : fs.isDirP (abspath wd (if ¬ isabs t then pjoin wd t else t)) = true) :
    safe_change_directory fs wd t =
      (true, abspath wd (if ¬ isabs t then pjoin wd t else t)) := by
  simp only [safe_change_directory]
  rw [if_neg (by simpa using h1), if_neg (by simpa using h2)]

theorem safe_change_eq_fail_notexists {fs : FS} {wd t : String}
    (h1 : fs.existsP (abspath wd (if ¬ isabs t then pjoin wd t else t)) = false) :
    safe_change_directory fs wd t = (false, wd) := by
  simp only [safe_change_directory]
  rw [if_pos (by simpa using h1)]

theorem safe_change_eq_fail_notdir {fs : FS} {wd t : String}
    (h1 : fs.existsP (abspath wd (if ¬ isabs t then pjoin wd t else t)) = true)
    (h2 : fs.isDirP (abspath wd (if ¬ isabs t then pjoin wd t else t)) = false) :
    safe_change_directory fs wd t = (false, wd) := by
  simp only [safe_change_directory]
  rw [if_neg (by simpa using h1), if_pos (by simpa using h2)]

theorem safe_change_cases (fs : FS) (wd t : String) :
    safe_change_directory fs wd t =
        (true, abspath wd (if ¬ isabs t then pjoin wd t else t)) ∧
      fs.existsP (abspath wd (if ¬ isabs t then pjoin wd t else t)) = true ∧
      fs.isDirP (abspath wd (if ¬ isabs t then pjoin wd t else t)) = true
    ∨ safe_change_directory fs wd t = (false, wd) := by
  by_cases h1 : fs.existsP (abspath wd (if ¬ isabs t then pjoin wd t else t)) = true
  · by_cases h2 : fs.isDirP (abspath wd (if ¬ isabs t then pjoin wd t else t)) = true
    · exact Or.inl ⟨safe_change_eq_success h1 h2, h1, h2⟩
    · exact Or.inr (safe_change_eq_fail_notdir h1 (by simpa using h2))
  · exact Or.inr (safe_change_eq_fail_notexists (by simpa using h1))

theorem safe_change_normAbs {fs : FS} {wd : String} (t : String)
    (h : isNormAbs wd) : isNormAbs (safe_change_directory fs wd t).2 := by
  rcases safe_change_cases fs wd t with ⟨heq, _, _⟩ | heq
  · rw [heq]
    exact isNormAbs_abspath _ h.1
  · rw [heq]
    exact h

theorem dirOpSegment_normAbs {sys : Runner} {fs : FS} {wd part : String}
    (h : isNormAbs wd) : isNormAbs (dirOpSegment sys fs wd part).2.2 := by
  rw [dirOpSegment]
  dsimp only
  split
  · split <;> exact h
  · split
    · split
      · rename_i wd' heq
        have hall := @safe_change_normAbs fs wd
          (pyStrip (pyReplace part "cd " "")) h
        rw [heq] at hall
        exact hall
      · exact h
    · split
      · split
        · exact h
        · exact h
      · exact h

theorem dirOpLoop_normAbs (sys : Runner) :
    ∀ (parts : List String) (fs : FS) (wd : String), isNormAbs wd →
      isNormAbs (dirOpLoop sys fs wd parts).2.2 := by
  intro parts
  induction parts with
  | nil => intro fs wd h; exact h
  | cons part rest ih =>
    intro fs wd h
    rw [dirOpLoop]
    have hseg := @dirOpSegment_normAbs sys fs wd (pyStrip part) h
    cases hsegeq : dirOpSegment sys fs wd (pyStrip part) with
    | mk res state =>
      rw [hsegeq] at hseg
      cases res with
      | some r => exact hseg
      | none => exact ih state.1 state.2 hseg

theorem handle_directory_operations_normAbs {sys : Runner} {fs : FS}
    {wd command : String} (h : isNormAbs wd) :
    isNormAbs (handle_directory_operations sys fs wd command).2.2 := by
  rw [handle_directory_operations]
  split
  · exact dirOpLoop_normAbs sys _ fs wd h
  · split
    · dsimp only
      split
      · rename_i wd' heq
        have hall := @safe_change_normAbs fs wd
          (pyStrip (pyReplace command "cd " "")) h
        rw [heq] at hall
        exact hall
      · exact h
    · exact h

theorem handle_heredoc_creation_wd (sys : Runner) (fs : FS) (wd command : String) :
    (handle_heredoc_creation sys fs wd command).2.2 = wd := by
  rw [handle_heredoc_creation]
  split
  · dsimp only
    split <;> rfl
  · split <;> rfl

theorem executeRun_wd (sys : Runner) (fs : FS) (wd command : String) :
    (executeRest.executeRun sys fs wd command).2.2 = wd := by
  rw [executeRest.executeRun]
  split
  · rfl
  · split
    · split <;> rfl
    · split <;> rfl

theorem executeRest_wd (sys : Runner) (fs : FS) (wd command : String) :
    (executeRest sys fs wd command).2.2 = wd := by
  rw [executeRest]
  dsimp only
  repeat' first
    | rfl
    | rw [executeRun_wd]
    | split

theorem execute_command_normAbs {sys : Runner} {fs : FS} {wd command : String}
    (h : isNormAbs wd) : isNormAbs (execute_command sys fs wd command).2.2 := by
  rw [execute_command]
  split
  · exact handle_directory_operations_normAbs h
  · split
    · rw [handle_heredoc_creation_wd]
      exact h
    · rw [executeRest_wd]
      exact h

theorem execute_step_normAbs {sys : Runner} {fs : FS} {wd : String} {step : Step}
    (h : isNormAbs wd) : isNormAbs (execute_step sys fs wd step).2.2 := by
  rw [execute_step]
  split
  · split <;> exact h
  · split
    · exact h
    · split
      · split
        · exact h
        · split
          · exact h
          · have hcmd := @execute_command_normAbs sys fs wd step.command h
            cases heq : execute_command sys fs wd step.command with
            | mk res state =>
              rw [heq] at hcmd
              simp [heq]
              exact hcmd
      · exact h

theorem initWorkingDir_normAbs {fs : FS} {cwd home : String}
    (initial_dir : Option String) (hcwd : isNormAbs cwd) (hhome : isNormAbs home) :
    isNormAbs (initWorkingDir fs cwd home initial_dir) := by
  unfold initWorkingDir
  dsimp only
  split
  · exact hhome
  · cases initial_dir with
    | none => exact hcwd
    | some d =>
      dsimp only
      split
      · exact isNormAbs_abspath d hcwd.1
      · exact hcwd

theorem pyIn_false_of_not_mem {sub s : String} {ch : Char}
    (hch : ch ∈ sub.data) (hns : ch ∉ s.data) : pyIn sub s = false := by
  rw [pyIn_false_iff]
  intro hinf
  exact hns (hinf.subset hch)

/-! ## Claim theorems -/

/-- Claim C3: a session initialised with a starting directory that exists and
lies under one of the disallowed roots `/system`, `/proc`, `/dev`, `/sys`,
`/root` gets `working_dir` equal to the caller's home directory, before any
step runs. -/
theorem init_redirects_restricted (fs : FS) (cwd home d : String)
    (h1 : d ≠ "") (h2 : fs.existsP (abspath cwd d) = true)
    (h3 : isUnderRestricted (abspath cwd d)) :
    initWorkingDir fs cwd home (some d) = home := by
  unfold initWorkingDir
  dsimp only
  rw [if_pos (show d ≠ "" ∧ fs.existsP (abspath cwd d) = true from ⟨h1, h2⟩),
    if_pos (isUnderRestricted_any h3)]

/-- Witness for C3: starting in `/proc/net` (which exists) redirects the
session to the home directory. -/
theorem init_redirects_restricted_witness :
    initWorkingDir wFs "/" "/home/user" (some "/proc/net") = "/home/user" :=
  init_redirects_restricted wFs "/" "/home/user" "/proc/net" (by decide)
    (by decide) ⟨"/proc", by decide, Or.inr (by decide)⟩

/-- Counterexample to claim C2: `safe_change_directory` performs no deny-list
check, so a directory change into `/proc` (which exists and is a directory)
succeeds and leaves `working_dir` under a disallowed root. -/
theorem safe_change_directory_restricted_cex :
    safe_change_directory wFs "/home/user" "/proc" = (true, "/proc") ∧
      isUnderRestricted "/proc" :=
  ⟨rfl, ⟨"/proc", by decide, Or.inl rfl⟩⟩

/-- Claim C2 (amended): the deny-list is consulted only at session
initialisation; `safe_change_directory` succeeds on any existing directory,
even one under a disallowed root, and sets `working_dir` to it. -/
theorem safe_change_directory_no_denylist (fs : FS) (wd t : String)
    (h1 : fs.existsP (abspath wd (if ¬ isabs t then pjoin wd t else t)) = true)
    (h2 : fs.isDirP (abspath wd (if ¬ isabs t then pjoin wd t else t)) = true)
    (_h3 : isUnderRestricted (abspath wd (if ¬ isabs t then pjoin wd t else t))) :
    safe_change_directory fs wd t =
      (true, abspath wd (if ¬ isabs t then pjoin wd t else t)) :=
  safe_change_eq_success h1 h2

/-- Witness for the amended C2. -/
theorem safe_change_directory_no_denylist_witness :
    safe_change_directory wFs "/home/user" "/proc" = (true, "/proc") := by
  have h := safe_change_directory_no_denylist wFs "/home/user" "/proc"
    (by decide) (by decide) ⟨"/proc", by decide, Or.inl (by decide)⟩
  simpa using h

/-- Claim C9: `working_dir` stays absolute and lexically normalised — after
initialisation (given an absolute, normalised process cwd and home), after
`safe_change_directory`, and after any `execute_step`; and
`safe_change_directory` mutates the working directory only when the resolved
target exists and is a directory. -/
theorem working_dir_norm_invariant :
    (∀ (fs : FS) (cwd home : String) (initial_dir : Option String),
        isNormAbs cwd → isNormAbs home →
        isNormAbs (initWorkingDir fs cwd home initial_dir)) ∧
    (∀ (fs : FS) (wd t : String), isNormAbs wd →
        isNormAbs (safe_change_directory fs wd t).2 ∧
        ((safe_change_directory fs wd t).1 = false →
          (safe_change_directory fs wd t).2 = wd) ∧
        ((safe_change_directory fs wd t).1 = true →
          fs.isDirP (safe_change_directory fs wd t).2 = true ∧
          fs.existsP (safe_change_directory fs wd t).2 = true)) ∧
    (∀ (sys : Runner) (fs : FS) (wd : String) (step : Step), isNormAbs wd →
        isNormAbs (execute_step sys fs wd step).2.2) := by
  refine ⟨fun fs cwd home i h1 h2 => initWorkingDir_normAbs i h1 h2,
    fun fs wd t h => ⟨safe_change_normAbs t h, ?_, ?_⟩,
    fun sys fs wd step h => execute_step_normAbs h⟩
  · intro hf
    rcases safe_change_cases fs wd t with ⟨heq, _, _⟩ | heq
    · rw [heq] at hf
      simp at hf
    · rw [heq]
  · intro hs
    rcases safe_change_cases fs wd t with ⟨heq, hex, hdir⟩ | heq
    · rw [heq]
      exact ⟨hdir, hex⟩
    · rw [heq] at hs
      simp at hs

/-- Witness for C9 at concrete inputs. -/
theorem working_dir_norm_invariant_witness :
    isNormAbs (initWorkingDir wFs "/" "/home/user" (some "/proc/net")) ∧
      isNormAbs (safe_change_directory wFs "/home/user" "/proc").2 ∧
      isNormAbs (execute_step wSysFast wFs "/home/user"
        { type := "info", description := "d" }).2.2 :=
  ⟨working_dir_norm_invariant.1 wFs "/" "/home/user" (some "/proc/net")
      (by constructor <;> rfl) (by constructor <;> rfl),
    (working_dir_norm_invariant.2.1 wFs "/home/user" "/proc"
      (by constructor <;> rfl)).1,
    working_dir_norm_invariant.2.2 wSysFast wFs "/home/user" _
      (by constructor <;> rfl)⟩

/-- Claim C10: a `file_create` step whose filename or content is missing or
empty fails without touching the filesystem or the working directory — in
particular empty-string content never creates an empty file. -/
theorem file_create_missing_fields (sys : Runner) (fs : FS) (wd : String)
    (step : Step) (h1 : step.type = "file_create")
    (h2 : step.filename = "" ∨ step.content = "") :
    execute_step sys fs wd step = (false, fs, wd) := by
  rw [execute_step, if_pos h1,
    if_neg (fun hc => h2.elim (fun h => hc.1 h) (fun h => hc.2 h))]

/-- Witness for C10: empty content fails and creates nothing. -/
theorem file_create_missing_fields_witness :
    execute_step wSysFast wFs "/home/user"
        { type := "file_create", filename := "f.c", content := "" } =
      (false, wFs, "/home/user") :=
  file_create_missing_fields wSysFast wFs "/home/user" _ rfl (Or.inr rfl)

/-- Claim C7: steps run strictly in plan order with a result recorded for
every step — a failure never stops the loop — and the tally counts the
successes; concretely, in the three-step fixture plan whose middle step fails
the results are `[true, false, true]` and the tally is 2 of 3. -/
theorem plan_continue_on_failure :
    (∀ (sys : Runner) (fs : FS) (wd : String) (steps : List Step),
        (runPlanSteps sys fs wd steps).1.length = steps.length ∧
        planTally (runPlanSteps sys fs wd steps).1 =
          ((runPlanSteps sys fs wd steps).1.count true)) ∧
    (runPlanSteps wSysFast wFs "/home/user" wSteps3).1 = [true, false, true] ∧
    planTally (runPlanSteps wSysFast wFs "/home/user" wSteps3).1 = 2 ∧
    wSteps3.length = 3 := by
  refine ⟨?_, by rfl, by rfl, by rfl⟩
  intro sys fs wd steps
  refine ⟨?_, rfl⟩
  induction steps generalizing fs wd with
  | nil => rfl
  | cons s rest ih =>
    rw [runPlanSteps]
    cases hstep : execute_step sys fs wd s with
    | mk ok state =>
      cases state with
      | mk fs' wd' =>
        dsimp only
        cases hrec : runPlanSteps sys fs' wd' rest with
        | mk results st2 =>
          dsimp only [List.length_cons]
          have h := ih fs' wd'
          rw [hrec] at h
          simpa using h

/-- Counterexample to claim C8: with no credential configured (`wApiNone`),
the request degrades but the process still exits with status 0 — not the
non-zero status the claim requires. -/
theorem main_no_credentials_exit_cex :
    (mainRun wSysFast wApiNone wFs "/" "/home/user"
        ["backend.py", "list files"] false).1 = 0 ∧
      keyTruthy wApiNone.openrouter_key = false ∧
      keyTruthy wApiNone.gemini_key = false := by
  exact ⟨rfl, rfl, rfl⟩

/-- Claim C8 (amended): a missing credential is reported exactly once and the
request runs no steps, but the process still exits 0; normal completion exits
0 regardless of step failures, and a user interrupt exits 130. -/
theorem main_exit_codes (sys : Runner) (api : Api) (fs : FS) (cwd home : String)
    (argv : List String) (h2 : 2 ≤ argv.length) :
    ((mainRun sys api fs cwd home argv false).1 = 0) ∧
    ((mainRun sys api fs cwd home argv true).1 = 130) ∧
    (keyTruthy api.openrouter_key = false → keyTruthy api.gemini_key = false →
      call_ai_api api = (none, [noKeysMsg]) ∧
      ∀ (wd : String), (process_request sys api fs wd).1.ranSteps = [] ∧
        (process_request sys api fs wd).1.apiErrors = [noKeysMsg]) := by
  have hlt : ¬ argv.length < 2 := by omega
  refine ⟨?_, ?_, ?_⟩
  · rw [mainRun, if_neg hlt]
    dsimp only
    rw [if_neg (by simp)]
  · rw [mainRun, if_neg hlt]
    dsimp only
    rw [if_pos rfl]
  · intro hor hgem
    have hcall : call_ai_api api = (none, [noKeysMsg]) := by
      rw [call_ai_api]
      dsimp only
      rw [hor, hgem]
      simp
    refine ⟨hcall, fun wd => ?_⟩
    rw [process_request, hcall]
    exact ⟨rfl, rfl⟩

/-- Witness for the amended C8. -/
theorem main_exit_codes_witness :
    (mainRun wSysFast wApiNone wFs "/" "/home/user" ["backend.py", "hi"] true).1 = 130 ∧
      call_ai_api wApiNone = (none, [noKeysMsg]) ∧
      (process_request wSysFast wApiNone wFs "/home/user").1.ranSteps = [] :=
  ⟨(main_exit_codes wSysFast wApiNone wFs "/" "/home/user" ["backend.py", "hi"]
      (by decide)).2.1,
    ((main_exit_codes wSysFast wApiNone wFs "/" "/home/user" ["backend.py", "hi"]
      (by decide)).2.2 rfl rfl).1,
    (((main_exit_codes wSysFast wApiNone wFs "/" "/home/user" ["backend.py", "hi"]
      (by decide)).2.2 rfl rfl).2 "/home/user").1⟩

/-- Counterexample to claim C1: on input `"hello"` — which contains no valid
Plan-shaped JSON object — `parse_response` returns a one-step plan whose
single step has type `command` (not Info/Text) carrying the *stripped* text,
refuting the claimed Info/Text fallback for every non-Plan input. -/
theorem parse_response_info_cex :
    parse_response "hello" = commandFallback "hello" ∧
      firstStepType (parse_response "hello") = some "command" ∧
      some "command" ≠ (some "info" : Option String) :=
  ⟨rfl, rfl, by decide⟩

/-- Claim C1 (amended): `parse_response` never raises (it is total by
construction), and its fallback is two-tiered: with no brace-delimited block
in the stripped input it returns a one-step `command` plan around the
stripped text; when a brace block exists but fails to decode it returns a
one-step `info` plan around the original text unmodified; and when the block
decodes, the decoded value is returned as-is whatever its shape. -/
theorem parse_response_fallback_cases (s : String) :
    (lbrace ∉ (pyStrip s).data → extractBrace (pyStrip s) = none) ∧
    (extractBrace (pyStrip s) = none →
      parse_response s = commandFallback (pyStrip s) ∧
      firstStepType (parse_response s) = some "command" ∧
      firstStepDescription (parse_response s) = some (pyStrip s)) ∧
    (∀ j, extractBrace (pyStrip s) = some j → jsonParse j = none →
      parse_response s = infoFallback s ∧
      firstStepType (parse_response s) = some "info" ∧
      firstStepDescription (parse_response s) = some s) ∧
    (∀ j v, extractBrace (pyStrip s) = some j → jsonParse j = some v →
      parse_response s = v) := by
  refine ⟨?_, ?_, ?_, ?_⟩
  · intro hno
    rw [extractBrace]
    have hfind : (pyStrip s).data.findIdx? (fun c => c = lbrace) = none := by
      refine List.findIdx?_eq_none_iff.mpr ?_
      intro x hx
      simp only [decide_eq_false_iff_not]
      intro he
      exact hno (he ▸ hx)
    rw [hfind]
  · intro hnone
    rw [parse_response, hnone]
    exact ⟨rfl, rfl, rfl⟩
  · intro j hsome hfail
    rw [parse_response, hsome]
    dsimp only
    rw [hfail]
    exact ⟨rfl, rfl, rfl⟩
  · intro j v hsome hok
    rw [parse_response, hsome]
    dsimp only
    rw [hok]

/-- Witness for the amended C1 at concrete inputs: prose with no braces gets
the command fallback, prose around an undecodable brace block gets the info
fallback, and a decodable block is returned as decoded. -/
theorem parse_response_fallback_cases_witness :
    parse_response "hello" = commandFallback "hello" ∧
      parse_response "x \x7bnot json\x7d y" = infoFallback "x \x7bnot json\x7d y" ∧
      parse_response "\x7b\"steps\": []\x7d" = .obj [("steps", .arr [])] :=
  ⟨((parse_response_fallback_cases "hello").2.1 (by rfl)).1,
    ((parse_response_fallback_cases "x \x7bnot json\x7d y").2.2.1
      "\x7bnot json\x7d" (by rfl) (by rfl)).1,
    (parse_response_fallback_cases "\x7b\"steps\": []\x7d").2.2.2
      "\x7b\"steps\": []\x7d" (.obj [("steps", .arr [])]) (by rfl) (by rfl)⟩

theorem existsP_of_readFile {fs : FS} {p content : String}
    (h : fs.readFile p = some content) : fs.existsP p = true := by
  simp [FS.existsP, FS.isFileP, h]

theorem fixGccScan_no_math (fs : FS) (wd cmd : String) :
    ∀ (files : List String),
      (∀ f ∈ files, ∀ content, fs.readFile (pjoin wd f) = some content →
        hasMathSymbols content = false) →
      fixGccScan fs wd cmd files = cmd := by
  intro files
  induction files with
  | nil => intro _; rfl
  | cons f rest ih =>
    intro h
    rw [fixGccScan]
    split
    · cases hread : fs.readFile (pjoin wd f) with
      | some content =>
        dsimp only
        rw [if_neg (by simp [h f (by simp) content hread])]
        exact ih (fun g hg => h g (List.mem_cons_of_mem f hg))
      | none => exact ih (fun g hg => h g (List.mem_cons_of_mem f hg))
    · exact ih (fun g hg => h g (List.mem_cons_of_mem f hg))

theorem fixGccScan_finds (fs : FS) (wd cmd : String) :
    ∀ (files : List String),
      (∃ f ∈ files, ∃ content, fs.readFile (pjoin wd f) = some content ∧
        hasMathSymbols content = true) →
      fixGccScan fs wd cmd files = pyReplace cmd "gcc " "gcc -lm " := by
  intro files
  induction files with
  | nil => rintro ⟨f, hf, _⟩; simp at hf
  | cons f rest ih =>
    rintro ⟨g, hg, c, hc, hm⟩
    rw [fixGccScan]
    by_cases hex : fs.existsP (pjoin wd f) = true
    · rw [if_pos hex]
      cases hread : fs.readFile (pjoin wd f) with
      | some content =>
        dsimp only
        by_cases hmath : hasMathSymbols content = true
        · rw [if_pos hmath]
        · rw [if_neg hmath]
          rcases List.mem_cons.mp hg with rfl | hgrest
          · rw [hc] at hread
            injection hread with hcc
            rw [hcc] at hm
            exact absurd hm hmath
          · exact ih ⟨g, hgrest, c, hc, hm⟩
      | none =>
        rcases List.mem_cons.mp hg with rfl | hgrest
        · rw [hc] at hread
          exact absurd hread (by simp)
        · exact ih ⟨g, hgrest, c, hc, hm⟩
    · rw [if_neg hex]
      rcases List.mem_cons.mp hg with rfl | hgrest
      · exact absurd (existsP_of_readFile hc) hex
      · exact ih ⟨g, hgrest, c, hc, hm⟩

/-- Claim C5: a gcc command naming a `.c` file whose content uses a math
symbol (`sin(`, `cos(`, `sqrt(`, `pow(` or the `math.h` include) and not
already containing `-lm` is rewritten by `command.replace('gcc ', 'gcc -lm ')`
and then contains the `-lm` flag; the command is returned unchanged when the
flag is already present or no named `.c` file has a math symbol. -/
theorem fix_gcc_math_flag (fs : FS) (wd cmd : String) :
    (pyIn "-lm" cmd = true → fix_gcc_command fs wd cmd = cmd) ∧
    ((∀ f ∈ cFilesOf cmd, ∀ content, fs.readFile (pjoin wd f) = some content →
        hasMathSymbols content = false) → fix_gcc_command fs wd cmd = cmd) ∧
    (pyIn "-lm" cmd = false → pyIn "gcc " cmd = true →
      (∃ f ∈ cFilesOf cmd, ∃ content, fs.readFile (pjoin wd f) = some content ∧
        hasMathSymbols content = true) →
      fix_gcc_command fs wd cmd = pyReplace cmd "gcc " "gcc -lm " ∧
      pyIn "-lm" (fix_gcc_command fs wd cmd) = true) := by
  refine ⟨?_, ?_, ?_⟩
  · intro h
    rw [fix_gcc_command, if_neg (by simp [h])]
  · intro h
    rw [fix_gcc_command]
    split
    · exact fixGccScan_no_math fs wd cmd (cFilesOf cmd) h
    · rfl
  · intro hlm hgcc hex
    have heq : fix_gcc_command fs wd cmd = pyReplace cmd "gcc " "gcc -lm " := by
      rw [fix_gcc_command, if_pos (by simp [hlm])]
      exact fixGccScan_finds fs wd cmd (cFilesOf cmd) hex
    refine ⟨heq, ?_⟩
    rw [heq, pyIn_iff]
    exact List.IsInfix.trans (show ("-lm").data <:+: ("gcc -lm ").data by decide)
      (pyReplace_contains_new "gcc -lm " (by decide) hgcc)

/-- Witness for C5: `a.c` under the home directory uses `sqrt(`, so the
compile command gains `-lm`; with the flag already present it is unchanged. -/
theorem fix_gcc_math_flag_witness :
    fix_gcc_command wFs "/home/user" "gcc a.c -o a" = "gcc -lm a.c -o a" ∧
      fix_gcc_command wFs "/home/user" "gcc -lm a.c -o a" = "gcc -lm a.c -o a" :=
  ⟨(((fix_gcc_math_flag wFs "/home/user" "gcc a.c -o a").2.2 (by rfl) (by rfl)
      ⟨"a.c", by decide, "int main() \x7b return sqrt(2); \x7d", by rfl,
        by rfl⟩).1).trans (by rfl),
    (fix_gcc_math_flag wFs "/home/user" "gcc -lm a.c -o a").1 (by rfl)⟩

theorem guiRewrite_id (present : Bool) (cmd : String) :
    ∀ (gs : List String), (∀ g ∈ gs, pyIn g cmd = false) →
      guiRewrite present cmd gs = some cmd := by
  intro gs
  induction gs with
  | nil => intro _; rfl
  | cons g rest ih =>
    intro h
    rw [guiRewrite, if_neg (by simp [h g (by simp)])]
    exact ih (fun g' hg' => h g' (List.mem_cons_of_mem g hg'))

theorem executeRun_interactive_timeout (sys : Runner) (fs : FS) (wd cmd : String)
    (hgui : ∀ g ∈ ["xdg-open", "open", "start"], pyIn g cmd = false)
    (hint : isInteractiveCmd cmd = true) (ht : sys.time cmd wd > 60) :
    executeRest.executeRun sys fs wd cmd =
      ((0, "Animation stopped after 60 seconds", ""), fs, wd) := by
  rw [executeRest.executeRun, guiRewrite_id sys.termuxOpenPresent cmd _ hgui]
  dsimp only
  rw [if_pos hint, Runner.withTimeout, if_pos ht]

theorem executeRun_captured_timeout (sys : Runner) (fs : FS) (wd cmd : String)
    (hgui : ∀ g ∈ ["xdg-open", "open", "start"], pyIn g cmd = false)
    (hint : isInteractiveCmd cmd = false) (ht : sys.time cmd wd > 300) :
    executeRest.executeRun sys fs wd cmd =
      ((1, "", "Command timed out after 5 minutes"), fs, wd) := by
  rw [executeRest.executeRun, guiRewrite_id sys.termuxOpenPresent cmd _ hgui]
  dsimp only
  rw [if_neg (by simp [hint]), Runner.withTimeout, if_pos ht]

theorem executeRest_to_run (sys : Runner) (fs : FS) (wd cmd : String)
    (hng : ¬ (pyIn "gcc " cmd = true ∧ pyIn ".c" cmd = true))
    (hdot : pyStartswith cmd "./" = true →
      (check_file_exists fs wd (((pySplitWs cmd).headD "").drop 2)).1 = true)
    (hpy : (pyStartswith cmd "python " = true ∨ pyStartswith cmd "python3 " = true) →
      1 < (pySplitWs cmd).length →
      (check_file_exists fs wd ((pySplitWs cmd)[1]!)).1 = true) :
    ∃ fs', executeRest sys fs wd cmd = executeRest.executeRun sys fs' wd cmd := by
  rw [executeRest]
  dsimp only
  rw [if_neg hng]
  by_cases hdot' : pyStartswith cmd "./" = true
  · rw [if_pos hdot']
    have hcheck := hdot hdot'
    cases hce : check_file_exists fs wd (((pySplitWs cmd).headD "").drop 2) with
    | mk ok path =>
      rw [hce] at hcheck
      dsimp only at hcheck
      subst hcheck
      exact ⟨fs.chmod path, rfl⟩
  · rw [if_neg hdot']
    split
    · rename_i hpyor
      split
      · rename_i hlen
        rw [if_neg (by simp [hpy hpyor hlen])]
        exact ⟨fs, rfl⟩
      · exact ⟨fs, rfl⟩
    · exact ⟨fs, rfl⟩

/-- Claim C6: for a plain command that reaches the process runner, an
interactive-classified command exceeding the 60-second bound yields a
successful "stopped" result (exit status 0 with the stop message), while a
captured-mode command exceeding the 300-second bound yields a failure (exit
status 1 with the timeout message). -/
theorem timeout_modes (sys : Runner) (fs : FS) (wd cmd : String)
    (hnd : pyIn " && cd " cmd = false) (hnc : pyStartswith cmd "cd " = false)
    (hnh : ¬ (pyIn "<<" cmd = true ∧ pyIn "EOF" cmd = true))
    (hng : ¬ (pyIn "gcc " cmd = true ∧ pyIn ".c" cmd = true))
    (hdot : pyStartswith cmd "./" = true →
      (check_file_exists fs wd (((pySplitWs cmd).headD "").drop 2)).1 = true)
    (hpy : (pyStartswith cmd "python " = true ∨ pyStartswith cmd "python3 " = true) →
      1 < (pySplitWs cmd).length →
      (check_file_exists fs wd ((pySplitWs cmd)[1]!)).1 = true)
    (hgui : ∀ g ∈ ["xdg-open", "open", "start"], pyIn g cmd = false) :
    (isInteractiveCmd cmd = true → sys.time cmd wd > 60 →
      (execute_command sys fs wd cmd).1 =
        (0, "Animation stopped after 60 seconds", "")) ∧
    (isInteractiveCmd cmd = false → sys.time cmd wd > 300 →
      (execute_command sys fs wd cmd).1 =
        (1, "", "Command timed out after 5 minutes")) := by
  have hdisp : execute_command sys fs wd cmd = executeRest sys fs wd cmd := by
    rw [execute_command, if_neg (by simp [hnd, hnc]), if_neg hnh]
  obtain ⟨fs', heq⟩ := executeRest_to_run sys fs wd cmd hng hdot hpy
  constructor
  · intro hint ht
    rw [hdisp, heq, executeRun_interactive_timeout sys fs' wd cmd hgui hint ht]
  · intro hint ht
    rw [hdisp, heq, executeRun_captured_timeout sys fs' wd cmd hgui hint ht]

/-- Witness for C6: `./donut` (interactive, takes 1000 s under `wSysSlow`)
stops successfully; `sleep 500` (captured) times out as a failure. -/
theorem timeout_modes_witness :
    (execute_command wSysSlow wFs "/home/user" "./donut").1 =
        (0, "Animation stopped after 60 seconds", "") ∧
      (execute_command wSysSlow wFs "/home/user" "sleep 500").1 =
        (1, "", "Command timed out after 5 minutes") :=
  ⟨(timeout_modes wSysSlow wFs "/home/user" "./donut" (by decide) (by decide)
      (by decide) (by decide) (by decide) (by decide) (by decide)).1
      (by decide) (by decide),
    (timeout_modes wSysSlow wFs "/home/user" "sleep 500" (by decide) (by decide)
      (by decide) (by decide) (by decide) (by decide) (by decide)).2
      (by decide) (by decide)⟩

theorem splitSkip_amp_boundary (Cd : List Char) (hC : '&' ∉ Cd) :
    ∀ (Md acc : List Char), '&' ∉ Md →
      splitSkip ' ' ['&', '&', ' '] (Md ++ ' ' :: '&' :: '&' :: ' ' :: Cd) 0 acc =
        [acc.reverse ++ Md, Cd] := by
  intro Md
  induction Md with
  | nil =>
    intro acc _
    have h2 : ¬ ((' ' :: ['&', '&', ' ']) <:+: Cd) := fun hinf =>
      hC (hinf.subset (by simp))
    have h1 := splitSkip_match ' ' ['&', '&', ' '] Cd acc
    rw [List.nil_append]
    rw [show (' ' :: '&' :: '&' :: ' ' :: Cd)
        = ((' ' :: ['&', '&', ' ']) ++ Cd) from rfl, h1,
      splitSkip_not_infix _ _ Cd [] h2]
    simp
  | cons x Md' ih =>
    intro acc hM
    have hx : '&' ∉ Md' := fun h => hM (List.mem_cons_of_mem x h)
    rw [List.cons_append, splitSkip]
    have hpre : ¬ ((' ' :: ['&', '&', ' ']).isPrefixOf
        (x :: (Md' ++ ' ' :: '&' :: '&' :: ' ' :: Cd)) = true) := by
      rw [List.isPrefixOf_iff_prefix]
      intro hp
      rw [List.cons_prefix_cons] at hp
      obtain ⟨hsp, hp2⟩ := hp
      cases Md' with
      | nil =>
        rw [List.nil_append, List.cons_prefix_cons] at hp2
        exact absurd hp2.1 (by decide)
      | cons y Md'' =>
        rw [List.cons_append, List.cons_prefix_cons] at hp2
        refine hM ?_
        rw [hp2.1]
        exact List.mem_cons_of_mem x (List.mem_cons_self y Md'')
    rw [if_neg (by simpa using hpre), ih (x :: acc) hx]
    simp

theorem pySplitStr_sep_amp (s : String) :
    pySplitStr s " && " =
      (splitSkip ' ' ['&', '&', ' '] s.data 0 []).map (fun l => ⟨l⟩) := rfl

theorem mkdirCd_split (A : String) (hamp : '&' ∉ A.data) :
    pySplitStr ("mkdir -p " ++ A ++ " && cd " ++ A) " && " =
      ["mkdir -p " ++ A, "cd " ++ A] := by
  rw [pySplitStr_sep_amp]
  have hdata : ("mkdir -p " ++ A ++ " && cd " ++ A).data
      = ("mkdir -p " ++ A).data ++ ' ' :: '&' :: '&' :: ' ' :: ("cd " ++ A).data := by
    have h1 : (" && cd " : String).data = [' ', '&', '&', ' ', 'c', 'd', ' '] := rfl
    have h2 : ("cd " : String).data = ['c', 'd', ' '] := rfl
    simp [String.data_append, h1, h2]
  have hampM : '&' ∉ ("mkdir -p " ++ A).data := by
    rw [String.data_append]
    intro h
    rcases List.mem_append.mp h with h | h
    · exact absurd h (by decide)
    · exact hamp h
  have hampC : '&' ∉ ("cd " ++ A).data := by
    rw [String.data_append]
    intro h
    rcases List.mem_append.mp h with h | h
    · exact absurd h (by decide)
    · exact hamp h
  rw [hdata, splitSkip_amp_boundary ("cd " ++ A).data hampC ("mkdir -p " ++ A).data [] hampM]
  simp only [List.reverse_nil, List.nil_append, List.map_cons, List.map_nil]

theorem pyStartswith_append (pre rest : String) :
    pyStartswith (pre ++ rest) pre = true := by
  rw [pyStartswith_iff, String.data_append]
  exact List.prefix_append _ _

theorem pyStrip_concat {pre A : String} {c : Char} (hc : pre.data.head? = some c)
    (hcw : c.isWhitespace = false)
    (hA : ∀ ch ∈ A.data, ch.isWhitespace = false) (hAne : A.data ≠ []) :
    pyStrip (pre ++ A) = pre ++ A := by
  apply pyStrip_eq_self
  · intro a ha
    rw [String.data_append] at ha
    cases hp : pre.data with
    | nil => rw [hp] at hc; simp at hc
    | cons p ps =>
      rw [hp] at hc ha
      simp only [List.cons_append, List.head?_cons, Option.some_inj] at hc ha
      rw [← ha, hc]
      exact hcw
  · intro a ha
    rw [String.data_append, List.getLast?_append] at ha
    obtain ⟨x, hx⟩ := List.exists_cons_of_ne_nil hAne
    obtain ⟨xs, hxs⟩ := hx
    have hlast := List.getLast?_eq_getLast_of_ne_nil (l := A.data) hAne
    rw [hlast] at ha
    simp [Option.or] at ha
    refine hA a ?_
    rw [← ha]
    exact List.getLast_mem hAne

theorem no_space_of_no_ws {A : String}
    (hws : ∀ ch ∈ A.data, ch.isWhitespace = false) : ' ' ∉ A.data := by
  intro h
  have := hws ' ' h
  simp at this

theorem makedirs_true {fs fs' : FS} {p : String}
    (h : fs.makedirs p = (true, fs')) :
    fs' = { fs with dirs := normpathStr p :: fs.dirs } ∧
      fs.isFileP (normpathStr p) = false := by
  rw [FS.makedirs] at h
  split at h
  · simp at h
  · rename_i hfile
    refine ⟨?_, by simpa using hfile⟩
    have := congrArg Prod.snd h
    simpa using this.symm

theorem makedirs_false {fs : FS} {p : String}
    (h : (fs.makedirs p).1 = false) :
    fs.makedirs p = (false, fs) := by
  rw [FS.makedirs] at h ⊢
  split at h
  · rename_i hfile
    rw [if_pos hfile]
  · simp at h

theorem abspath_of_abs {cwd p : String} (h : isabs p = true) :
    abspath cwd p = normpathStr p := by
  rw [abspath, if_pos h]

/-- Claim C4: for a step command `mkdir -p A && cd A` (with `A` a plain
directory token: non-empty, no whitespace, no `&`) from an absolute working
directory `wd`: when the directory can be created, the step succeeds, the
working directory becomes the lexical normalisation of `wd/A`, and the
directory exists; when `mkdir` fails (a file occupies the path), the step
reports a non-zero result and the working directory is unchanged. -/
theorem mkdir_cd_step (sys : Runner) (fs : FS) (wd A : String)
    (hwd : isabs wd = true) (hne : A ≠ "") (hamp : '&' ∉ A.data)
    (hws : ∀ ch ∈ A.data, ch.isWhitespace = false) :
    (∀ fs', fs.makedirs (if ¬ isabs A then pjoin wd A else A) = (true, fs') →
      execute_command sys fs wd ("mkdir -p " ++ A ++ " && cd " ++ A) =
        ((0, "Directory operations completed", ""), fs',
          normpathStr (if ¬ isabs A then pjoin wd A else A)) ∧
      fs'.isDirP (normpathStr (if ¬ isabs A then pjoin wd A else A)) = true) ∧
    ((fs.makedirs (if ¬ isabs A then pjoin wd A else A)).1 = false →
      (execute_command sys fs wd ("mkdir -p " ++ A ++ " && cd " ++ A)).1.1 = 1 ∧
      (execute_command sys fs wd ("mkdir -p " ++ A ++ " && cd " ++ A)).2.2 = wd) := by
  have hAd : A.data ≠ [] := fun h => hne (strData_eq_nil.mp h)
  have hsp : ' ' ∉ A.data := no_space_of_no_ws hws
  have hin_mkdirp : pyIn "mkdir -p " A = false :=
    pyIn_false_of_not_mem (show ' ' ∈ ("mkdir -p " : String).data by decide) hsp
  have hin_mkdir : pyIn "mkdir " A = false :=
    pyIn_false_of_not_mem (show ' ' ∈ ("mkdir " : String).data by decide) hsp
  have hin_cd : pyIn "cd " A = false :=
    pyIn_false_of_not_mem (show ' ' ∈ ("cd " : String).data by decide) hsp
  have hrepM : pyStrip (pyReplace (pyReplace ("mkdir -p " ++ A) "mkdir -p " "")
      "mkdir " "") = A := by
    rw [pyReplace_strip_pre (by decide) hin_mkdirp,
      pyReplace_of_not_in "" (by decide) hin_mkdir, pyStrip_of_no_ws hws]
  have hrepC : pyStrip (pyReplace ("cd " ++ A) "cd " "") = A := by
    rw [pyReplace_strip_pre (by decide) hin_cd, pyStrip_of_no_ws hws]
  have hstripM : pyStrip ("mkdir -p " ++ A) = "mkdir -p " ++ A :=
    pyStrip_concat (c := 'm') rfl (by decide) hws hAd
  have hstripC : pyStrip ("cd " ++ A) = "cd " ++ A :=
    pyStrip_concat (c := 'c') rfl (by decide) hws hAd
  have hswM : pyStartswith ("mkdir -p " ++ A) "mkdir " = true := by
    have h0 : (("mkdir " : String) ++ "-p ") = "mkdir -p " :=
      String.ext (by rw [String.data_append]; decide)
    have he : ("mkdir -p " : String) ++ A = "mkdir " ++ ("-p " ++ A) := by
      rw [← h0, String.append_assoc]
    rw [he]
    exact pyStartswith_append _ _
  have hswC_cd : pyStartswith ("cd " ++ A) "cd " = true := pyStartswith_append _ _
  have hswC_mkdir : pyStartswith ("cd " ++ A) "mkdir " = false := by
    rw [pyStartswith_false_iff]
    intro hp
    rw [String.data_append] at hp
    rw [show ("mkdir " : String).data = 'm' :: ['k', 'd', 'i', 'r', ' '] from rfl,
      show ("cd " : String).data ++ A.data = 'c' :: ('d' :: ' ' :: A.data) from rfl,
      List.cons_prefix_cons] at hp
    exact absurd hp.1 (by decide)
  set tgt0 := if ¬ isabs A then pjoin wd A else A with htgt0
  have habs0 : isabs tgt0 = true := by
    rw [htgt0]
    split
    · exact isabs_pjoin A hwd
    · rename_i h
      exact not_not.mp h
  have hnorm_idem : normpathStr (normpathStr tgt0) = normpathStr tgt0 :=
    normpathStr_idem_abs habs0
  have habs_t2 : abspath wd tgt0 = normpathStr tgt0 := abspath_of_abs habs0
  have hinfix : pyIn " && cd " ("mkdir -p " ++ A ++ " && cd " ++ A) = true := by
    rw [pyIn_iff]
    refine ⟨("mkdir -p " ++ A).data, A.data, ?_⟩
    have h1 : (" && cd " : String).data = [' ', '&', '&', ' ', 'c', 'd', ' '] := rfl
    simp [String.data_append, h1]
  have hsplit := mkdirCd_split A hamp
  constructor
  · intro fs' hmk
    obtain ⟨hfs', _⟩ := makedirs_true hmk
    have hdirP : fs'.isDirP (normpathStr tgt0) = true := by
      rw [hfs']
      simp [FS.isDirP, hnorm_idem]
    have hexP : fs'.existsP (normpathStr tgt0) = true := by
      simp [FS.existsP, hdirP]
    have hseg1 : dirOpSegment sys fs wd (pyStrip ("mkdir -p " ++ A)) =
        (none, fs', wd) := by
      rw [hstripM, dirOpSegment, if_pos hswM]
      dsimp only
      rw [hrepM, ← htgt0, hmk]
    have hsc : safe_change_directory fs' wd A = (true, normpathStr tgt0) := by
      have h1 : fs'.existsP (abspath wd (if ¬ isabs A then pjoin wd A else A)) = true := by
        rw [← htgt0, habs_t2]
        exact hexP
      have h2 : fs'.isDirP (abspath wd (if ¬ isabs A then pjoin wd A else A)) = true := by
        rw [← htgt0, habs_t2]
        exact hdirP
      rw [safe_change_eq_success h1 h2, ← htgt0, habs_t2]
    have hseg2 : dirOpSegment sys fs' wd (pyStrip ("cd " ++ A)) =
        (none, fs', normpathStr tgt0) := by
      rw [hstripC, dirOpSegment, if_neg (by simp [hswC_mkdir]), if_pos hswC_cd]
      dsimp only
      rw [hrepC, hsc]
    refine ⟨?_, hdirP⟩
    rw [execute_command, if_pos (Or.inl hinfix), handle_directory_operations,
      if_pos hinfix, hsplit, dirOpLoop, hseg1]
    dsimp only
    rw [dirOpLoop, hseg2]
    rfl
  · intro hfail
    have hmkf := makedirs_false hfail
    have hseg1f : dirOpSegment sys fs wd (pyStrip ("mkdir -p " ++ A)) =
        (some (1, "", "Directory operation error: " ++ tgt0), fs, wd) := by
      rw [hstripM, dirOpSegment, if_pos hswM]
      dsimp only
      rw [hrepM, ← htgt0, hmkf]
    rw [execute_command, if_pos (Or.inl hinfix), handle_directory_operations,
      if_pos hinfix, hsplit, dirOpLoop, hseg1f]
    exact ⟨rfl, rfl⟩

/-- Witness for C4: creating and entering `ab` from `/home/user` succeeds and
normalises the working directory; with a file named `ab` in the way the step
fails and the working directory is unchanged. -/
theorem mkdir_cd_step_witness :
    execute_command wSysFast wFs "/home/user" "mkdir -p ab && cd ab" =
        ((0, "Directory operations completed", ""),
          { wFs with dirs := "/home/user/ab" :: wFs.dirs }, "/home/user/ab") ∧
      (execute_command wSysFast wFsBlocked "/home/user" "mkdir -p ab && cd ab").1.1 = 1 ∧
      (execute_command wSysFast wFsBlocked "/home/user" "mkdir -p ab && cd ab").2.2 =
        "/home/user" := by
  refine ⟨?_, ?_, ?_⟩
  · have h := ((mkdir_cd_step wSysFast wFs "/home/user" "ab" (by decide) (by decide)
      (by decide) (by decide)).1 { wFs with dirs := "/home/user/ab" :: wFs.dirs }
      (by rfl)).1
    exact h.trans (by rfl)
  · exact ((mkdir_cd_step wSysFast wFsBlocked "/home/user" "ab" (by decide) (by decide)
      (by decide) (by decide)).2 (by rfl)).1
  · exact ((mkdir_cd_step wSysFast wFsBlocked "/home/user" "ab" (by decide) (by decide)
      (by decide) (by decide)).2 (by rfl)).2
